import Mathlib

/-!
Verification development for the charitylens data-acquisition and scoring
pipeline.  Each Go component touched by the properties under review is given
a shallow embedding: pure Lean functions mirroring the source, with the
database queries and the wall clock turned into explicit parameters.
`float64` money amounts are modelled as rationals (on the inputs the
properties touch, the Go double-precision evaluation and the exact rational
evaluation agree), machine integers as `Nat`/`Int`, and timestamps as
nanosecond counts.

Layout: all definitions first (one namespace per Go package/component),
then the theorems.
-/

namespace Scoring

/-- One `financials` row as read by `CalculateScore`
(`SELECT total_income, total_spending, charitable_activities_spend, reserves,
assets, COALESCE(trustees, 0) ... ORDER BY financial_year_end DESC LIMIT 1`). -/
structure Financial where
  totalIncome : ℚ
  totalSpending : ℚ
  charitableActivitiesSpend : ℚ
  reserves : ℚ
  assets : ℚ
  trustees : ℤ
deriving Repr, DecidableEq

/-- One `annual_return_history` row, restricted to the columns the three
filing sub-scores read.  Dates are day numbers (`Option` = SQL NULL). -/
structure FilingRow where
  finPeriodEndDate : Option ℤ
  reportingDueDate : Option ℤ
  dateAnnualReturnReceived : Option ℤ
  dateAccountsReceived : Option ℤ
  accountsQualified : Option Bool
deriving Repr, DecidableEq

/-- The result shape of `CalculateScore` (`models.CharityScore`), minus the
charity number and timestamp bookkeeping. -/
structure CharityScore where
  efficiencyScore : ℚ
  financialHealthScore : ℚ
  transparencyScore : ℚ
  governanceScore : ℚ
  overallScore : ℚ
  confidenceLevel : String
deriving Repr, DecidableEq

/-- Everything `CalculateScore` reads from the database and the clock:
the charity row (website after NullString conversion), the latest financial
row if that query succeeded, the trustee count, and the
`annual_return_history` rows for this charity ordered by
`fin_period_end_date DESC` (as every one of the three filing queries orders
them).  `fiveYearCutoff`/`threeYearCutoff` stand for
`date('now','-5 years')` / `date('now','-3 years')`, and `since365` for
`time.Since(charity.LastUpdated) > 365*24*time.Hour`. -/
structure ScoreInput where
  website : String
  financial : Option Financial
  trusteeCount : ℕ
  filingRows : List FilingRow
  fiveYearCutoff : ℤ
  threeYearCutoff : ℤ
  since365 : Bool
deriving Repr, DecidableEq

/-- `calculateFilingTimeliness`: the SQL keeps rows with a non-NULL
`reporting_due_date`, takes the 3 most recent, and the Go loop counts a row
on-time when the annual return or the accounts were received on or before
the due date (`!received.After(due)`). -/
def calculateFilingTimeliness (rows : List FilingRow) : ℚ :=
  let recent := (rows.filter (fun row => row.reportingDueDate.isSome)).take 3
  let totalCount := recent.countP (fun row => row.reportingDueDate.isSome)
  let onTimeCount := recent.countP (fun row =>
    match row.reportingDueDate with
    | none => false
    | some due =>
        (match row.dateAnnualReturnReceived with
         | some ar => decide (ar ≤ due)
         | none => false) ||
        (match row.dateAccountsReceived with
         | some acc => decide (acc ≤ due)
         | none => false))
  if totalCount = 0 then 50 else (onTimeCount : ℚ) / (totalCount : ℚ) * 100

/-- `calculateFilingConsistency`: rows whose `fin_period_end_date` falls in
the last 5 years (NULL end dates drop out of the SQL comparison); the score
is the fraction of them with a received annual return, scaled to 100. -/
def calculateFilingConsistency (fiveYearCutoff : ℤ) (rows : List FilingRow) : ℚ :=
  let recent := rows.filter (fun row =>
    match row.finPeriodEndDate with
    | some d => decide (fiveYearCutoff ≤ d)
    | none => false)
  let expectedFilings := recent.length
  let actualFilings := recent.countP (fun row => row.dateAnnualReturnReceived.isSome)
  if expectedFilings = 0 then 50
  else (actualFilings : ℚ) / (expectedFilings : ℚ) * 100

/-- `calculateAccountsQuality`: over rows of the last 3 years with a known
`accounts_qualified` flag, 100 minus the qualified fraction × 100
(100 when no such row exists). -/
def calculateAccountsQuality (threeYearCutoff : ℤ) (rows : List FilingRow) : ℚ :=
  let recent := rows.filter (fun row =>
    row.accountsQualified.isSome &&
    (match row.finPeriodEndDate with
     | some d => decide (threeYearCutoff ≤ d)
     | none => false))
  let totalCount := recent.length
  let qualifiedCount := recent.countP (fun row => row.accountsQualified = some true)
  if totalCount = 0 then 100
  else if 0 < qualifiedCount then 100 - (qualifiedCount : ℚ) / (totalCount : ℚ) * 100
  else 100

/-- Whether `CalculateScore` treats the spending breakdown as present:
`hasFinancial && fin.CharitableActivitiesSpend > 0`. -/
def hasSpendingBreakdown (financial : Option Financial) : Prop :=
  match financial with
  | some fin => 0 < fin.charitableActivitiesSpend
  | none => False

instance (financial : Option Financial) : Decidable (hasSpendingBreakdown financial) := by
  unfold hasSpendingBreakdown; cases financial <;> infer_instance

/-- `scoring.CalculateScore`, with the database reads supplied in `input`.
The score-persistence step (`INSERT OR REPLACE INTO charity_scores`) is
outside the returned value and not modelled. -/
def CalculateScore (input : ScoreInput) : CharityScore :=
  let efficiencyScore : ℚ :=
    match input.financial with
    | some fin =>
        if 0 < fin.charitableActivitiesSpend ∧ 0 < fin.totalSpending then
          min 100 (fin.charitableActivitiesSpend / fin.totalSpending * 100)
        else if 0 < fin.totalSpending then 60
        else 0
    | none => 0
  let financialHealthScore : ℚ :=
    match input.financial with
    | some fin =>
        if 0 < fin.totalSpending then
          let monthlySpending := fin.totalSpending / 12
          if 0 < fin.reserves ∨ 0 < fin.assets then
            let reserves := if fin.reserves = 0 ∧ 0 < fin.assets then fin.assets else fin.reserves
            let reserveMonths := reserves / monthlySpending
            if 3 ≤ reserveMonths ∧ reserveMonths ≤ 12 then 100
            else if reserveMonths < 3 then reserveMonths / 3 * 100
            else
              let excessMonths := reserveMonths - 12
              let penalty := min 30 (excessMonths / 12 * 5)
              max 70 (100 - penalty)
          else 50
        else 0
    | none => 0
  let transparencyScore : ℚ :=
    (if input.website ≠ "" then 30 else 0) +
    (if input.financial.isSome then 20 else 0) +
    (if 0 < input.trusteeCount then 10 else 0) +
    calculateFilingTimeliness input.filingRows * (25 / 100) +
    calculateFilingConsistency input.fiveYearCutoff input.filingRows * (10 / 100) +
    calculateAccountsQuality input.threeYearCutoff input.filingRows * (5 / 100)
  let governanceScore : ℚ :=
    if 3 ≤ input.trusteeCount then 100
    else if 0 < input.trusteeCount then (input.trusteeCount : ℚ) / 3 * 100
    else 0
  let overallScore : ℚ :=
    efficiencyScore * (4 / 10) + financialHealthScore * (3 / 10) +
    transparencyScore * (2 / 10) + governanceScore * (1 / 10)
  let dataCompleteness : ℤ :=
    (if input.financial.isSome then 1 else 0) +
    (if input.website ≠ "" then 1 else 0) +
    (if 0 < input.trusteeCount then 1 else 0) -
    (if input.since365 then 1 else 0)
  let confidenceLevel :=
    if 2 ≤ dataCompleteness then "high"
    else if dataCompleteness = 1 then "medium"
    else "low"
  { efficiencyScore := efficiencyScore
    financialHealthScore := financialHealthScore
    transparencyScore := transparencyScore
    governanceScore := governanceScore
    overallScore := overallScore
    confidenceLevel := confidenceLevel }

/-- The claim C1 scenario input: latest financial record with total spending
100000, charitable-activity spend 80000, reserves 30000; a website; 4
trustees; no filing-history rows. -/
def scenarioInput : ScoreInput :=
  { website := "https://example.org"
    financial := some
      { totalIncome := 120000
        totalSpending := 100000
        charitableActivitiesSpend := 80000
        reserves := 30000
        assets := 0
        trustees := 0 }
    trusteeCount := 4
    filingRows := []
    fiveYearCutoff := 0
    threeYearCutoff := 0
    since365 := false }

end Scoring

namespace RateLimiter

/-- One second in nanoseconds (`time.Second`). -/
def second : ℕ := 1000000000

/-- The token-bucket fields of `api.RateLimiter` (the request-history ring is
modelled separately below).  Timestamps are nanoseconds. -/
structure RLState where
  tokens : ℕ
  maxTokens : ℕ
  refillInterval : ℕ
  lastRefill : ℕ
deriving Repr, DecidableEq

/-- `NewRateLimiter`: full bucket, `refillInterval = time.Second / rate`
(integer division of durations), `lastRefill = time.Now()`. -/
def NewRateLimiter (requestsPerSecond : ℕ) (now : ℕ) : RLState :=
  { tokens := requestsPerSecond
    maxTokens := requestsPerSecond
    refillInterval := second / requestsPerSecond
    lastRefill := now }

/-- The token refill performed at the top of `Wait` and after each sleep:
`tokensToAdd = elapsed / refillInterval`; when positive, tokens are topped up
(capped at `maxTokens`) and `lastRefill` moves to `now`. -/
def refill (s : RLState) (now : ℕ) : RLState :=
  let tokensToAdd := (now - s.lastRefill) / s.refillInterval
  if 0 < tokensToAdd then
    { s with tokens := min s.maxTokens (s.tokens + tokensToAdd), lastRefill := now }
  else s

/-- Token consumption (`rl.tokens--`). -/
def consume (s : RLState) : RLState := { s with tokens := s.tokens - 1 }

/-- Run a sequence of `Wait` checks at the given (monotone) clock readings:
each check refills, and if a token is available the pending `Wait` consumes
it and completes at that time; otherwise the wait loop sleeps and re-checks
at the next reading.  Returns the final state and the completion times.
A run of `N` sequential `Wait` calls is exactly such a check sequence. -/
def execWaits : RLState → List ℕ → RLState × List ℕ
  | s, [] => (s, [])
  | s, t :: ts =>
    let s1 := refill s t
    if 0 < s1.tokens then
      let rest := execWaits (consume s1) ts
      (rest.1, t :: rest.2)
    else
      execWaits s1 ts

/-- Number of completions in a run. -/
def numComps (s : RLState) (ts : List ℕ) : ℕ := (execWaits s ts).2.length

/-- Completions falling in the half-open one-second window `[a, a + second)`. -/
def windowCount (comps : List ℕ) (a : ℕ) : ℕ :=
  comps.countP (fun t => decide (a ≤ t) && decide (t < a + second))

/-- The history append + trim at the end of `Wait`: keep only the last 100
request timestamps. -/
def recordRequest (history : List ℕ) (now : ℕ) : List ℕ :=
  let h := history ++ [now]
  if 100 < h.length then h.drop (h.length - 100) else h

/-- The retained request-timestamp ring after a sequence of completions. -/
def requestHistory (completions : List ℕ) : List ℕ :=
  completions.foldl recordRequest []

/-- Whether a timestamp is strictly after `now - time.Minute`
(`t.After(oneMinuteAgo)`). -/
def inLastMinute (now t : ℕ) : Bool := decide ((now : ℤ) - 60 * (second : ℤ) < (t : ℤ))

/-- Whether a timestamp is strictly after `now - time.Second`. -/
def inLastSecond (now t : ℕ) : Bool := decide ((now : ℤ) - (second : ℤ) < (t : ℤ))

/-- `GetStats`: requests in the trailing minute and trailing second, counted
by scanning the retained ring. -/
def GetStats (history : List ℕ) (now : ℕ) : ℕ × ℕ :=
  (history.countP (inLastMinute now), history.countP (inLastSecond now))

end RateLimiter

namespace Api

/-- Per-key usage counters (`KeyStats`). -/
structure KeyStats where
  totalRequests : ℕ
  failedRequests : ℕ
  lastUsed : ℕ
deriving Repr, DecidableEq

/-- The key-selection state of `Client`: the ordered key list, the atomic
round-robin counter, and the per-key stats map. -/
structure ClientState where
  apiKeys : List String
  keyIndex : ℕ
  keyStats : String → KeyStats

/-- `getNextAPIKey`: with a single configured key, return it at once;
otherwise advance the atomic index, pick `apiKeys[index % len]`, and record
the attempt (total-request counter and last-used time) on that key's stats. -/
def getNextAPIKey (now : ℕ) (c : ClientState) : String × ClientState :=
  if c.apiKeys.length = 1 then
    (c.apiKeys.headD "", c)
  else
    let index := c.keyIndex + 1
    let key := c.apiKeys.getD (index % c.apiKeys.length) ""
    let stats := c.keyStats key
    (key,
      { c with
        keyIndex := index
        keyStats := fun k =>
          if k = key then
            { stats with totalRequests := stats.totalRequests + 1, lastUsed := now }
          else c.keyStats k })

/-- The key masking inside `GetKeyStats`: keys longer than 8 bytes become
`key[:8] + "..." + key[len-4:]`; shorter keys are returned as they are.
(Keys are ASCII, so Go's byte slicing and `String.take`/`drop` agree.) -/
def maskKey (key : String) : String :=
  if 8 < key.length then
    key.take 8 ++ "..." ++ key.drop (key.length - 4)
  else key

/-- The mask as the spec words it — first 8 and last 4 characters only, for
every key.  (Second definition, kept to compare with `maskKey`.) -/
def specMaskKey (key : String) : String :=
  key.take 8 ++ "..." ++ key.drop (key.length - 4)

/-- `GetKeyStats`: the per-key stats re-keyed by the masked keys (the Go
map's iteration order is modelled by the key-list order). -/
def GetKeyStats (c : ClientState) : List (String × KeyStats) :=
  c.apiKeys.map (fun key => (maskKey key, c.keyStats key))

/-- One response of the registry as `doRequest` classifies it:
transport error, an HTTP status, or a 200 with a decodable body. -/
inductive Response where
  | netErr : Response
  | status : ℕ → Response
  | ok : Response
deriving Repr, DecidableEq

/-- What `doRequest` returns. -/
inductive RequestResult where
  | success : RequestResult
  | notFound : RequestResult
  | apiError : ℕ → RequestResult
  | maxRetriesExceeded : RequestResult
deriving Repr, DecidableEq

/-- The retry loop of `doRequest`: one oracle entry per allowed attempt
(the list length is the remaining attempt budget `maxRetries + 1 - attempt`).
200 decodes and returns; 404 returns the distinguished not-found error at
once; 429 and 5xx retry (429 rotating keys / sleeping, which affects only
timing); other 4xx return at once; a transport error retries.  Returns the
result and the number of HTTP requests sent from this point on. -/
def doRequestLoop : List Response → RequestResult × ℕ
  | [] => (RequestResult.maxRetriesExceeded, 0)
  | resp :: rest =>
    match resp with
    | Response.ok => (RequestResult.success, 1)
    | Response.netErr =>
        let r := doRequestLoop rest
        (r.1, r.2 + 1)
    | Response.status code =>
        if code = 404 then (RequestResult.notFound, 1)
        else if code = 429 ∨ 500 ≤ code then
          let r := doRequestLoop rest
          (r.1, r.2 + 1)
        else (RequestResult.apiError code, 1)

end Api

namespace Importer

/-- Parsed dates are modelled opaquely by their source string:
`parseDate`'s format fallbacks do not matter to the import claims, only
that it is a pure function of the string. -/
def parseDate (s : String) : String := s

/-- The fields of a charity JSON record that the charity upsert and its
validity checks read (payload fields the importer never touches are
omitted from the model). -/
structure CharityRecord where
  organisationNumber : ℕ
  registeredCharityNumber : ℕ
  linkedCharityNumber : ℕ
  charityCompanyRegistrationNumber : Option String
  charityName : String
  charityRegistrationStatus : String
  dateOfRegistration : String
  dateOfRemoval : Option String
  charityContactAddress1 : Option String
  charityContactAddress2 : Option String
  charityContactAddress3 : Option String
  charityContactAddress4 : Option String
  charityContactAddress5 : Option String
  charityContactPostcode : Option String
  charityContactPhone : Option String
  charityContactEmail : Option String
  charityContactWeb : Option String
  charityActivities : Option String
  latestAccFinPeriodEndDate : Option String
  latestIncome : Option ℚ
  latestExpenditure : Option ℚ
deriving Repr, DecidableEq

/-- The fields of a trustee JSON record that the trustee upsert reads. -/
structure TrusteeRecord where
  registeredCharityNumber : ℕ
  trusteeName : String
deriving Repr, DecidableEq

/-- `buildAddress`: join the non-nil, non-empty address parts with ", ". -/
def buildAddress (parts : List (Option String)) : String :=
  parts.foldl
    (fun address part =>
      match part with
      | some p =>
          if p ≠ "" then
            if address ≠ "" then address ++ ", " ++ p else address ++ p
          else address
      | none => address)
    ""

/-- One `charities` row as written by the importer's
`INSERT OR REPLACE INTO charities`. -/
structure CharityRow where
  organisationNumber : ℕ
  registeredNumber : ℕ
  linkedCharityNumber : ℕ
  companyNumber : Option String
  name : String
  status : String
  dateRegistered : String
  dateRemoved : Option String
  address : String
  website : Option String
  email : Option String
  phone : Option String
  whatTheCharityDoes : Option String
  lastUpdated : ℕ
deriving Repr, DecidableEq

/-- One `financials` row as written by `insertFinancialData`. -/
structure FinancialRow where
  totalIncome : ℚ
  totalSpending : ℚ
  charitableActivitiesSpend : ℚ
  raisingFundsSpend : ℚ
  otherSpend : ℚ
  reserves : ℚ
  assets : ℚ
  trustees : ℤ
  lastUpdated : ℕ
deriving Repr, DecidableEq

/-- One `trustees` row beyond its `(charity_number, name)` key. -/
structure TrusteeRow where
  lastUpdated : ℕ
deriving Repr, DecidableEq

/-- The relational store, one finite map per table keyed by the SQLite
primary key (`INSERT OR REPLACE` = overwrite at the key): `charities` by
`organisation_number`, `financials` by `(charity_number,
financial_year_end)`, `trustees` by `(charity_number, name)`. -/
structure DB where
  charities : ℕ → Option CharityRow
  financials : ℕ × String → Option FinancialRow
  trustees : ℕ × String → Option TrusteeRow

/-- The empty store. -/
def emptyDB : DB := ⟨fun _ => none, fun _ => none, fun _ => none⟩

/-- The `charities` row built from a record (the `stmt.Exec` arguments). -/
def charityRowOf (now : ℕ) (r : CharityRecord) : CharityRow :=
  { organisationNumber := r.organisationNumber
    registeredNumber := r.registeredCharityNumber
    linkedCharityNumber := r.linkedCharityNumber
    companyNumber := r.charityCompanyRegistrationNumber
    name := r.charityName
    status := r.charityRegistrationStatus
    dateRegistered := parseDate r.dateOfRegistration
    dateRemoved := r.dateOfRemoval.map parseDate
    address := buildAddress [r.charityContactAddress1, r.charityContactAddress2,
      r.charityContactAddress3, r.charityContactAddress4, r.charityContactAddress5,
      r.charityContactPostcode]
    website := r.charityContactWeb
    email := r.charityContactEmail
    phone := r.charityContactPhone
    whatTheCharityDoes := r.charityActivities
    lastUpdated := now }

/-- The `financials` row `insertFinancialData` writes: latest income and
expenditure, every unavailable breakdown field zeroed. -/
def finRowOf (now : ℕ) (r : CharityRecord) : FinancialRow :=
  { totalIncome := r.latestIncome.getD 0
    totalSpending := r.latestExpenditure.getD 0
    charitableActivitiesSpend := 0
    raisingFundsSpend := 0
    otherSpend := 0
    reserves := 0
    assets := 0
    trustees := 0
    lastUpdated := now }

/-- `insertFinancialData` (called when latest income and expenditure are
both present): a missing latest period end date makes it a no-op, else an
upsert at `(registered number, parsed end date)`. -/
def insertFinancialData (now : ℕ) (r : CharityRecord) (db : DB) : DB :=
  match r.latestAccFinPeriodEndDate with
  | none => db
  | some endDate =>
      { db with financials := fun k =>
          if k = (r.registeredCharityNumber, parseDate endDate) then
            some (finRowOf now r)
          else db.financials k }

/-- Import progress counters (`ImportProgress`). -/
structure ImportProgress where
  totalRecords : ℕ
  processedRecords : ℕ
  successRecords : ℕ
  skippedRecords : ℕ
  failedRecords : ℕ
deriving Repr, DecidableEq

/-- Fresh progress at the start of an import run. -/
def initialProgress : ImportProgress := ⟨0, 0, 0, 0, 0⟩

/-- The per-element step of `importCharitiesFromReader` fused with the
per-record body of `insertCharityBatch`: `none` is an array element that
is well-formed JSON but fails to decode into the record type (an
unmarshal-class `decoder.Decode` error: the decoder has already read past
the value, so the element is consumed, logged and counted failed, and the
stream continues at the next element); a decoded record with charity
number 0 is counted skipped; otherwise the charities upsert runs, the
optional financial upsert follows, and the record counts as a success.  A
JSON syntax error does not fit this per-element shape — `Decode` stores it
and never advances past the malformed input — and is modelled separately
by `DecodeResult.errStuck` and `importLoopFuel` below.  Batch transactions
always commit in this model, so batching does not change the final store
or the counters. -/
def importCharityStep (now : ℕ) (st : DB × ImportProgress)
    (elem : Option CharityRecord) : DB × ImportProgress :=
  match elem with
  | none =>
      (st.1, { st.2 with failedRecords := st.2.failedRecords + 1 })
  | some r =>
      let p1 := { st.2 with
        totalRecords := st.2.totalRecords + 1
        processedRecords := st.2.processedRecords + 1 }
      if r.registeredCharityNumber = 0 then
        (st.1, { p1 with skippedRecords := p1.skippedRecords + 1 })
      else
        let db1 := { st.1 with charities := (fun k =>
          if k = r.organisationNumber then some (charityRowOf now r)
          else st.1.charities k) }
        let db2 :=
          if r.latestIncome.isSome ∧ r.latestExpenditure.isSome then
            insertFinancialData now r db1
          else db1
        (db2, { p1 with successRecords := p1.successRecords + 1 })

/-- `importCharitiesFromReader`: stream the decoded array elements in
order. -/
def importCharities (now : ℕ) (elems : List (Option CharityRecord)) (db : DB) :
    DB × ImportProgress :=
  elems.foldl (importCharityStep now) (db, initialProgress)

/-- The per-element step of `importTrusteesFromReader` fused with
`insertTrusteeBatch`: `none` is an unmarshal-class decode failure (the
decoder advanced past the element; counted failed, stream continues),
records with charity number 0 or an empty name count skipped, the rest
upsert and count as successes.  As for the charity stream, a JSON syntax
error never advances the decoder and so never reaches this per-element
step; the trustee loop has the same `for decoder.More() { Decode; continue }`
shape, so the divergence modelled by `importLoopFuel` applies to it
verbatim. -/
def importTrusteeStep (now : ℕ) (st : DB × ImportProgress)
    (elem : Option TrusteeRecord) : DB × ImportProgress :=
  match elem with
  | none =>
      (st.1, { st.2 with failedRecords := st.2.failedRecords + 1 })
  | some r =>
      let p1 := { st.2 with
        totalRecords := st.2.totalRecords + 1
        processedRecords := st.2.processedRecords + 1 }
      if r.registeredCharityNumber = 0 ∨ r.trusteeName = "" then
        (st.1, { p1 with skippedRecords := p1.skippedRecords + 1 })
      else
        ({ st.1 with trustees := (fun k =>
            if k = (r.registeredCharityNumber, r.trusteeName) then
              some { lastUpdated := now }
            else st.1.trustees k) },
         { p1 with successRecords := p1.successRecords + 1 })

/-- `importTrusteesFromReader`: stream the decoded array elements in
order. -/
def importTrustees (now : ℕ) (elems : List (Option TrusteeRecord)) (db : DB) :
    DB × ImportProgress :=
  elems.foldl (importTrusteeStep now) (db, initialProgress)

/-- Whether a charity stream element will be counted a success: it decodes
and has a nonzero registered charity number (and its upsert commits, which
it always does in this model). -/
def charityElemOk (elem : Option CharityRecord) : Bool :=
  match elem with
  | some r => decide (r.registeredCharityNumber ≠ 0)
  | none => false

/-- What one charity stream element writes into `charities` at key `k`
(`none` when it writes nothing there). -/
def writeCh (now : ℕ) (k : ℕ) (elem : Option CharityRecord) : Option CharityRow :=
  match elem with
  | some r =>
      if r.registeredCharityNumber ≠ 0 ∧ k = r.organisationNumber then
        some (charityRowOf now r)
      else none
  | none => none

/-- What one charity stream element writes into `financials` at key `k`. -/
def writeFin (now : ℕ) (k : ℕ × String) (elem : Option CharityRecord) :
    Option FinancialRow :=
  match elem with
  | some r =>
      match r.latestAccFinPeriodEndDate with
      | some endDate =>
          if r.registeredCharityNumber ≠ 0 ∧
              (r.latestIncome.isSome ∧ r.latestExpenditure.isSome) ∧
              k = (r.registeredCharityNumber, parseDate endDate) then
            some (finRowOf now r)
          else none
      | none => none
  | none => none

/-- What one trustee stream element writes into `trustees` at key `k`. -/
def writeTr (now : ℕ) (k : ℕ × String) (elem : Option TrusteeRecord) :
    Option TrusteeRow :=
  match elem with
  | some r =>
      if ¬(r.registeredCharityNumber = 0 ∨ r.trusteeName = "") ∧
          k = (r.registeredCharityNumber, r.trusteeName) then
        some { lastUpdated := now }
      else none
  | none => none

/-- The last write a stream performs at a key (later elements win). -/
def lastWrite {α β : Type} (write : β → Option α) (elems : List β) : Option α :=
  elems.foldr (fun e acc => acc.or (write e)) none

/-- A charity row up to its `last_updated` timestamp. -/
def charityContent (row : CharityRow) : CharityRow := { row with lastUpdated := 0 }

/-- A financials row up to its `last_updated` timestamp. -/
def finContent (row : FinancialRow) : FinancialRow := { row with lastUpdated := 0 }

/-- The C6 counterexample record: a valid charity record (number 5,
organisation 7) with no latest financial figures. -/
def sampleCharityRecord : CharityRecord :=
  { organisationNumber := 7
    registeredCharityNumber := 5
    linkedCharityNumber := 0
    charityCompanyRegistrationNumber := none
    charityName := "Sample"
    charityRegistrationStatus := "Registered"
    dateOfRegistration := "2020-01-02"
    dateOfRemoval := none
    charityContactAddress1 := none
    charityContactAddress2 := none
    charityContactAddress3 := none
    charityContactAddress4 := none
    charityContactAddress5 := none
    charityContactPostcode := none
    charityContactPhone := none
    charityContactEmail := none
    charityContactWeb := none
    charityActivities := none
    latestAccFinPeriodEndDate := none
    latestIncome := none
    latestExpenditure := none }

/-- The C4 counterexample record: decodes fine but has registered charity
number 0, so the batch insert skips it (not a success). -/
def zeroNumberRecord : CharityRecord :=
  { sampleCharityRecord with organisationNumber := 9, registeredCharityNumber := 0 }

end Importer

namespace Importer

/-- The outcome of one `decoder.Decode` call on the next array element.
`ok r` is a successful decode.  `errAdvance` is a decode error on a
well-formed JSON value (an unmarshal error): the decoder has read past the
value, so the stream can continue at the next element.  `errStuck` is a
JSON syntax error: `Decode` stores the error in the decoder and consumes
no input, and `More()`, which only peeks at the next buffered byte, keeps
returning `true`. -/
inductive DecodeResult where
  | ok (r : CharityRecord)
  | errAdvance
  | errStuck
deriving Repr, DecidableEq

/-- The `for decoder.More() { if err := decoder.Decode(&record); err != nil
{ FailedRecords++; continue } ... }` loop of `importCharitiesFromReader`,
with an explicit fuel bound on the number of iterations: `some` is the
final state once `More()` turns false, `none` means the loop was still
running when the fuel ran out.  On `errStuck` the decoder does not
advance, so the iteration increments `FailedRecords` and leaves the
remaining stream unchanged — the loop body re-reads the same stuck
element forever. -/
def importLoopFuel (now : ℕ) : ℕ → List DecodeResult → DB × ImportProgress →
    Option (DB × ImportProgress)
  | _, [], st => some st
  | 0, _ :: _, _ => none
  | fuel + 1, DecodeResult.ok r :: rest, st =>
      importLoopFuel now fuel rest (importCharityStep now st (some r))
  | fuel + 1, DecodeResult.errAdvance :: rest, st =>
      importLoopFuel now fuel rest (importCharityStep now st none)
  | fuel + 1, DecodeResult.errStuck :: rest, st =>
      importLoopFuel now fuel (DecodeResult.errStuck :: rest)
        (st.1, { st.2 with failedRecords := st.2.failedRecords + 1 })

/-- The import loop's overall behaviour: elements are consumed in order
until the array ends or the first `errStuck` element, at which the loop
diverges — `none` here means no fuel bound suffices
(`importStream_sound`), i.e. the real loop never terminates and the
elements after the syntax error are never imported. -/
def importStream (now : ℕ) : List DecodeResult → DB × ImportProgress →
    Option (DB × ImportProgress)
  | [], st => some st
  | DecodeResult.ok r :: rest, st =>
      importStream now rest (importCharityStep now st (some r))
  | DecodeResult.errAdvance :: rest, st =>
      importStream now rest (importCharityStep now st none)
  | DecodeResult.errStuck :: _, _ => none

/-- The decoded element a consumed `DecodeResult` contributes to the
per-element stream (`errStuck` is never consumed, so its image is
irrelevant). -/
def decodedElem : DecodeResult → Option CharityRecord
  | DecodeResult.ok r => some r
  | DecodeResult.errAdvance => none
  | DecodeResult.errStuck => none

/-- Whether a charity stream element will be counted skipped: it decodes
but carries registered charity number 0. -/
def charityElemSkipped (elem : Option CharityRecord) : Bool :=
  match elem with
  | some r => decide (r.registeredCharityNumber = 0)
  | none => false

end Importer

namespace Crawler

/-- The start/end/resume part of the seeder `Config` (API mode). -/
structure CrawlConfig where
  startCharity : ℕ
  endCharity : ℕ
  resumeFrom : ℕ
deriving Repr, DecidableEq

/-- `loadCheckpoint`: the single checkpoint row when present;
`sql.ErrNoRows` yields 0 with no error. -/
def loadCheckpoint (checkpointRow : Option ℕ) : ℕ := checkpointRow.getD 0

/-- The starting identifier `runAPIScrape` chooses: an explicit `-resume`
argument wins; else a positive checkpoint lying within
`[startCharity, endCharity]`; else the range start. -/
def determineStart (config : CrawlConfig) (checkpointRow : Option ℕ) : ℕ :=
  if 0 < config.resumeFrom then config.resumeFrom
  else
    let checkpoint := loadCheckpoint checkpointRow
    if 0 < checkpoint ∧ config.startCharity ≤ checkpoint ∧
        checkpoint ≤ config.endCharity then
      checkpoint
    else config.startCharity

/-- The identifiers the feeder goroutine dispatches, in order:
`startCharity` through `endCharity` inclusive. -/
def dispatched (config : CrawlConfig) (checkpointRow : Option ℕ) : List ℕ :=
  List.range' (determineStart config checkpointRow)
    (config.endCharity + 1 - determineStart config checkpointRow)

end Crawler

namespace RateLimiter

theorem recordRequest_length_le (history : List ℕ) (now : ℕ) :
    (recordRequest history now).length ≤ 100 := by
  have hlen : (history ++ [now]).length = history.length + 1 := by simp
  simp only [recordRequest]
  by_cases h : 100 < (history ++ [now]).length
  · rw [if_pos h, List.length_drop]
    omega
  · rw [if_neg h]
    omega

theorem requestHistory_length_le (completions : List ℕ) :
    (requestHistory completions).length ≤ 100 := by
  unfold requestHistory
  have h : ∀ (l : List ℕ) (h0 : List ℕ), h0.length ≤ 100 →
      (l.foldl recordRequest h0).length ≤ 100 := by
    intro l
    induction l with
    | nil => intro h0 hh; simpa using hh
    | cons x xs ih =>
        intro h0 _
        simpa using ih (recordRequest h0 x) (recordRequest_length_le h0 x)
  exact h completions [] (by simp)

theorem consume_tokens (s : RLState) : (consume s).tokens = s.tokens - 1 := rfl

theorem consume_maxTokens (s : RLState) : (consume s).maxTokens = s.maxTokens := rfl

theorem consume_refillInterval (s : RLState) :
    (consume s).refillInterval = s.refillInterval := rfl

theorem consume_lastRefill (s : RLState) : (consume s).lastRefill = s.lastRefill := rfl

theorem refill_maxTokens (s : RLState) (t : ℕ) : (refill s t).maxTokens = s.maxTokens := by
  simp only [refill]; split <;> rfl

theorem refill_refillInterval (s : RLState) (t : ℕ) :
    (refill s t).refillInterval = s.refillInterval := by
  simp only [refill]; split <;> rfl

theorem refill_tokens_le (s : RLState) (t : ℕ) (h : s.tokens ≤ s.maxTokens) :
    (refill s t).tokens ≤ s.maxTokens := by
  simp only [refill]; split
  · exact min_le_left _ _
  · exact h

theorem refill_lastRefill_le (s : RLState) (t U : ℕ) (h1 : t ≤ U) (h2 : s.lastRefill ≤ U) :
    (refill s t).lastRefill ≤ U := by
  simp only [refill]; split
  · exact h1
  · exact h2

theorem refill_of_applied (s : RLState) (t : ℕ)
    (h : 0 < (t - s.lastRefill) / s.refillInterval) :
    refill s t =
      { s with
        tokens := min s.maxTokens (s.tokens + (t - s.lastRefill) / s.refillInterval)
        lastRefill := t } := by
  simp only [refill]; rw [if_pos h]

theorem refill_of_skipped (s : RLState) (t : ℕ)
    (h : ¬ 0 < (t - s.lastRefill) / s.refillInterval) :
    refill s t = s := by
  simp only [refill]; rw [if_neg h]

theorem numComps_nil (s : RLState) : numComps s [] = 0 := rfl

theorem numComps_cons (s : RLState) (t : ℕ) (ts : List ℕ) :
    numComps s (t :: ts) =
      if 0 < (refill s t).tokens then numComps (consume (refill s t)) ts + 1
      else numComps (refill s t) ts := by
  by_cases h : 0 < (refill s t).tokens
  · rw [if_pos h]
    simp only [numComps, execWaits, if_pos h, List.length_cons]
  · rw [if_neg h]
    simp only [numComps, execWaits, if_neg h]

theorem execWaits_fst_maxTokens (ts : List ℕ) : ∀ s : RLState,
    (execWaits s ts).1.maxTokens = s.maxTokens := by
  induction ts with
  | nil => intro s; rfl
  | cons t ts ih =>
      intro s
      simp only [execWaits]
      split
      · rw [ih, consume_maxTokens, refill_maxTokens]
      · rw [ih, refill_maxTokens]

theorem execWaits_fst_refillInterval (ts : List ℕ) : ∀ s : RLState,
    (execWaits s ts).1.refillInterval = s.refillInterval := by
  induction ts with
  | nil => intro s; rfl
  | cons t ts ih =>
      intro s
      simp only [execWaits]
      split
      · rw [ih, consume_refillInterval, refill_refillInterval]
      · rw [ih, refill_refillInterval]

theorem execWaits_fst_tokens_le (ts : List ℕ) : ∀ s : RLState, s.tokens ≤ s.maxTokens →
    (execWaits s ts).1.tokens ≤ (execWaits s ts).1.maxTokens := by
  induction ts with
  | nil => intro s h; exact h
  | cons t ts ih =>
      intro s h
      simp only [execWaits]
      split
      · refine ih _ ?_
        have h1 := refill_tokens_le s t h
        rw [consume_tokens, consume_maxTokens, refill_maxTokens]
        omega
      · refine ih _ ?_
        have h1 := refill_tokens_le s t h
        rw [refill_maxTokens]
        exact h1

theorem execWaits_append (xs ys : List ℕ) : ∀ s : RLState,
    execWaits s (xs ++ ys) =
      ((execWaits (execWaits s xs).1 ys).1,
        (execWaits s xs).2 ++ (execWaits (execWaits s xs).1 ys).2) := by
  induction xs with
  | nil => intro s; simp [execWaits]
  | cons t xs ih =>
      intro s
      simp only [List.cons_append, execWaits]
      split
      · simp [ih]
      · simp [ih]

theorem execWaits_comps_mem (ts : List ℕ) : ∀ (s : RLState) (u : ℕ),
    u ∈ (execWaits s ts).2 → u ∈ ts := by
  induction ts with
  | nil => intro s u h; simp [execWaits] at h
  | cons t ts ih =>
      intro s u h
      simp only [execWaits] at h
      split at h
      · simp only [List.mem_cons] at h
        rcases h with h | h
        · simp [h]
        · exact List.mem_cons_of_mem _ (ih _ u h)
      · exact List.mem_cons_of_mem _ (ih _ u h)

/-- The token-bucket potential `tokens + (U - lastRefill) / interval` never
increases across a refill (the heart of the long-run rate bound): refilled
tokens are paid for by the advance of `lastRefill`. -/
theorem refill_potential_le (s : RLState) (t U : ℕ) (htU : t ≤ U) (hLU : s.lastRefill ≤ U) :
    (refill s t).tokens + (U - (refill s t).lastRefill) / s.refillInterval ≤
      s.tokens + (U - s.lastRefill) / s.refillInterval := by
  by_cases hadd : 0 < (t - s.lastRefill) / s.refillInterval
  · rw [refill_of_applied s t hadd]
    have hLt : s.lastRefill ≤ t := by
      by_contra hc
      push_neg at hc
      have h0 : t - s.lastRefill = 0 := by omega
      rw [h0] at hadd
      simp at hadd
    have h2 : (t - s.lastRefill) / s.refillInterval + (U - t) / s.refillInterval ≤
        (U - s.lastRefill) / s.refillInterval := by
      have h3 := Nat.add_div_le_add_div (t - s.lastRefill) (U - t) s.refillInterval
      have h4 : t - s.lastRefill + (U - t) = U - s.lastRefill := by omega
      rw [h4] at h3
      exact h3
    show min s.maxTokens (s.tokens + (t - s.lastRefill) / s.refillInterval) +
        (U - t) / s.refillInterval ≤ s.tokens + (U - s.lastRefill) / s.refillInterval
    omega
  · rw [refill_of_skipped s t hadd]

/-- Long-run rate bound: from any state, a run whose check times all lie
below `U` completes at most `tokens + (U - lastRefill) / interval` waits. -/
theorem numComps_le_potential (ts : List ℕ) : ∀ (s : RLState) (U : ℕ),
    0 < s.refillInterval → (∀ t ∈ ts, t ≤ U) → s.lastRefill ≤ U →
    numComps s ts ≤ s.tokens + (U - s.lastRefill) / s.refillInterval := by
  induction ts with
  | nil =>
      intro s U _ _ _
      simp [numComps_nil]
  | cons t ts ih =>
      intro s U hι hts hL
      have htU : t ≤ U := hts t (by simp)
      have hrest : ∀ x ∈ ts, x ≤ U := fun x hx => hts x (by simp [hx])
      have hpot := refill_potential_le s t U htU hL
      have hι1 : (refill s t).refillInterval = s.refillInterval := refill_refillInterval s t
      have hL1 : (refill s t).lastRefill ≤ U := refill_lastRefill_le s t U htU hL
      rw [numComps_cons]
      by_cases htok : 0 < (refill s t).tokens
      · rw [if_pos htok]
        have ihx := ih (consume (refill s t)) U
          (by rw [consume_refillInterval, hι1]; exact hι) hrest
          (by rw [consume_lastRefill]; exact hL1)
        rw [consume_tokens, consume_lastRefill, consume_refillInterval, hι1] at ihx
        omega
      · rw [if_neg htok]
        have ihx := ih (refill s t) U (by rw [hι1]; exact hι) hrest hL1
        rw [hι1] at ihx
        omega

/-- A run whose check times all precede `lastRefill + interval` never
refills: `lastRefill` is unchanged and every completion consumes one of the
tokens already present. -/
theorem execWaits_noRefill (ts : List ℕ) : ∀ s : RLState,
    (∀ t ∈ ts, t < s.lastRefill + s.refillInterval) →
    (execWaits s ts).1.lastRefill = s.lastRefill ∧
      (execWaits s ts).1.tokens + numComps s ts = s.tokens := by
  induction ts with
  | nil =>
      intro s _
      simp [numComps_nil, execWaits]
  | cons t ts ih =>
      intro s h
      have ht : t < s.lastRefill + s.refillInterval := h t (by simp)
      have hre : refill s t = s := by
        refine refill_of_skipped s t ?_
        rcases Nat.eq_zero_or_pos s.refillInterval with h0 | h0
        · simp [h0]
        · have hlt : t - s.lastRefill < s.refillInterval := by omega
          simp [Nat.div_eq_of_lt hlt]
      simp only [numComps, execWaits, hre]
      by_cases htok : 0 < s.tokens
      · simp only [if_pos htok]
        have ih' := ih (consume s) (fun x hx => by
          rw [consume_lastRefill, consume_refillInterval]
          exact h x (List.mem_cons_of_mem _ hx))
        simp only [numComps] at ih'
        rw [consume_lastRefill, consume_tokens] at ih'
        refine ⟨ih'.1, ?_⟩
        simp only [List.length_cons]
        omega
      · simp only [if_neg htok]
        exact ih s fun x hx => h x (List.mem_cons_of_mem _ hx)

/-- Window-segment bound: from any state with `tokens ≤ maxTokens`, a run
whose check times all lie in `[a, a + second)` completes at most
`maxTokens + (second - 1) / interval + 1` waits.  Split the run at the first
check at or after `lastRefill + interval`: before it no refill happens, and
from it on the long-run potential bound applies with `lastRefill` pinned
inside (or just before) the window. -/
theorem numComps_window_le (a : ℕ) (ts : List ℕ) (s : RLState)
    (hι : 0 < s.refillInterval) (htok : s.tokens ≤ s.maxTokens)
    (hW : ∀ t ∈ ts, a ≤ t ∧ t < a + second) :
    numComps s ts ≤ s.maxTokens + (second - 1) / s.refillInterval + 1 := by
  have hsec : 2 ≤ second := by norm_num [second]
  have hts := (List.takeWhile_append_dropWhile
    (fun t => decide (t < s.lastRefill + s.refillInterval)) ts).symm
  have hPmem : ∀ t ∈ ts.takeWhile (fun t => decide (t < s.lastRefill + s.refillInterval)),
      t < s.lastRefill + s.refillInterval := by
    intro t htmem
    simpa using List.mem_takeWhile_imp htmem
  have hnr := execWaits_noRefill _ s hPmem
  set P := ts.takeWhile (fun t => decide (t < s.lastRefill + s.refillInterval)) with hPdef
  set R := ts.dropWhile (fun t => decide (t < s.lastRefill + s.refillInterval)) with hRdef
  set sP := (execWaits s P).1 with hsPdef
  have happ := execWaits_append P R s
  have hcount : numComps s ts = numComps s P + numComps sP R := by
    conv_lhs => rw [hts]
    simp only [numComps, happ, List.length_append, hsPdef]
  rw [hcount]
  have hmaxP : sP.maxTokens = s.maxTokens := execWaits_fst_maxTokens P s
  have hintP : sP.refillInterval = s.refillInterval := execWaits_fst_refillInterval P s
  have hD0 : 0 ≤ (second - 1) / s.refillInterval := Nat.zero_le _
  rcases hRcase : R with _ | ⟨f, Q⟩
  · -- no check ever reaches `lastRefill + interval`: no refill, so the
    -- completions all come out of the initial tokens
    rw [numComps_nil]
    omega
  · -- `f` is the first check at or after `lastRefill + interval`
    have hRts : ts.dropWhile (fun t => decide (t < s.lastRefill + s.refillInterval)) =
        f :: Q := by rw [← hRdef]; exact hRcase
    have hf : ¬ f < s.lastRefill + s.refillInterval := by
      have hh := List.head?_dropWhile_not
        (fun t => decide (t < s.lastRefill + s.refillInterval)) ts
      rw [hRts] at hh
      simpa using hh
    have hfts : f ∈ ts := by
      have hmem : f ∈ ts.dropWhile (fun t => decide (t < s.lastRefill + s.refillInterval)) := by
        rw [hRts]; simp
      exact (List.dropWhile_sublist _).mem hmem
    have hQts : ∀ x ∈ Q, x ∈ ts := by
      intro x hx
      have hmem : x ∈ ts.dropWhile (fun t => decide (t < s.lastRefill + s.refillInterval)) := by
        rw [hRts]; simp [hx]
      exact (List.dropWhile_sublist _).mem hmem
    obtain ⟨hfa, hfb⟩ := hW f hfts
    have hadd : 0 < (f - sP.lastRefill) / sP.refillInterval := by
      rw [hnr.1, hintP]
      rw [Nat.lt_iff_add_one_le, zero_add, Nat.one_le_div_iff hι]
      omega
    have href := refill_of_applied sP f hadd
    have hrefI : (refill sP f).refillInterval = sP.refillInterval := refill_refillInterval sP f
    have hlr : (refill sP f).lastRefill = f := by rw [href]
    have hQle : ∀ x ∈ Q, x ≤ a + second - 1 := by
      intro x hx
      have := (hW x (hQts x hx)).2
      omega
    have hfU : f ≤ a + second - 1 := by omega
    have hstep1 : numComps (refill sP f) Q ≤
        (refill sP f).tokens + (a + second - 1 - f) / s.refillInterval := by
      have h := numComps_le_potential Q (refill sP f) (a + second - 1)
        (by rw [hrefI, hintP]; exact hι) hQle (by rw [hlr]; exact hfU)
      rw [hrefI, hintP, hlr] at h
      exact h
    have hstep2 : numComps (consume (refill sP f)) Q ≤
        ((refill sP f).tokens - 1) + (a + second - 1 - f) / s.refillInterval := by
      have h := numComps_le_potential Q (consume (refill sP f)) (a + second - 1)
        (by rw [consume_refillInterval, hrefI, hintP]; exact hι) hQle
        (by rw [consume_lastRefill, hlr]; exact hfU)
      rw [consume_tokens, consume_lastRefill, consume_refillInterval, hrefI, hintP, hlr] at h
      exact h
    have htoks1 : (refill sP f).tokens =
        min sP.maxTokens (sP.tokens + (f - sP.lastRefill) / sP.refillInterval) := by
      rw [href]
    have hUf : (a + second - 1 - f) / s.refillInterval ≤ (second - 1) / s.refillInterval :=
      Nat.div_le_div_right (by omega)
    have hE0 : 0 ≤ (a + second - 1 - f) / s.refillInterval := Nat.zero_le _
    rw [numComps_cons]
    rcases hPcase : P with _ | ⟨p, P'⟩
    · -- empty prefix: the tokens at `f` are capped at `maxTokens`
      have h2 := hnr.2
      rw [hPcase, numComps_nil] at h2
      have htokle : (refill sP f).tokens ≤ s.maxTokens := by
        rw [htoks1, hmaxP]
        exact min_le_left _ _
      rw [numComps_nil]
      by_cases hctok : 0 < (refill sP f).tokens
      · rw [if_pos hctok]
        omega
      · rw [if_neg hctok]
        omega
    · -- nonempty prefix: its head lies in the window and below
      -- `lastRefill + interval`, pinning `lastRefill` to just before the window
      have hpmem : p ∈ ts.takeWhile (fun t => decide (t < s.lastRefill + s.refillInterval)) := by
        rw [← hPdef, hPcase]; simp
      have hpts : p ∈ ts := (List.takeWhile_sublist _).mem hpmem
      have hppred : p < s.lastRefill + s.refillInterval := by
        simpa using List.mem_takeWhile_imp hpmem
      have hpa : a ≤ p := (hW p hpts).1
      have htokle : (refill sP f).tokens ≤
          sP.tokens + (f - sP.lastRefill) / sP.refillInterval := by
        rw [htoks1]; exact min_le_right _ _
      have hsum : (f - sP.lastRefill) / sP.refillInterval +
          (a + second - 1 - f) / s.refillInterval ≤
          (a + second - 1 - s.lastRefill) / s.refillInterval := by
        rw [hnr.1, hintP]
        have h3 := Nat.add_div_le_add_div (f - s.lastRefill) (a + second - 1 - f)
          s.refillInterval
        have h4 : f - s.lastRefill + (a + second - 1 - f) =
            a + second - 1 - s.lastRefill := by omega
        rw [h4] at h3
        exact h3
      have hclose : (a + second - 1 - s.lastRefill) / s.refillInterval ≤
          (second - 1) / s.refillInterval + 1 := by
        have h5 : a + second - 1 - s.lastRefill ≤ second - 2 + s.refillInterval := by omega
        calc (a + second - 1 - s.lastRefill) / s.refillInterval
            ≤ (second - 2 + s.refillInterval) / s.refillInterval :=
              Nat.div_le_div_right h5
          _ = (second - 2) / s.refillInterval + 1 := Nat.add_div_right _ hι
          _ ≤ (second - 1) / s.refillInterval + 1 := by
              have h6 := Nat.div_le_div_right (c := s.refillInterval)
                (show second - 2 ≤ second - 1 by omega)
              omega
      have hF0 : 0 ≤ (f - sP.lastRefill) / sP.refillInterval := Nat.zero_le _
      have hG0 : 0 ≤ (a + second - 1 - s.lastRefill) / s.refillInterval := Nat.zero_le _
      have h2 := hnr.2
      rw [hPcase] at h2
      by_cases hctok : 0 < (refill sP f).tokens
      · rw [if_pos hctok]
        omega
      · rw [if_neg hctok]
        omega

theorem sorted_dropWhile_ge (b : ℕ) : ∀ l : List ℕ, l.Sorted (· ≤ ·) →
    ∀ t ∈ l.dropWhile (fun x => decide (x < b)), b ≤ t := by
  intro l
  induction l with
  | nil => intro _ t ht; simp at ht
  | cons x xs ih =>
      intro hs t ht
      rw [List.sorted_cons] at hs
      rw [List.dropWhile_cons] at ht
      by_cases hx : x < b
      · rw [if_pos (by simpa using hx)] at ht
        exact ih hs.2 t ht
      · rw [if_neg (by simpa using hx)] at ht
        rcases List.mem_cons.mp ht with h | h
        · omega

        · have := hs.1 t h; omega

end RateLimiter

/-- C3 amended: the token bucket starts full, so a one-second window can see
a burst of up to `r` completions on top of the refill stream; for every rate
`r > 0` dividing one second (in nanoseconds, as the defaults do), no
half-open one-second window ever contains more than `2·r` completions of
sequential `Wait` calls, whatever the (monotone) check schedule. -/
theorem wait_window_bound (requestsPerSecond t0 a : ℕ) (ts : List ℕ)
    (hr : 0 < requestsPerSecond) (hdvd : requestsPerSecond ∣ RateLimiter.second)
    (hsorted : ts.Sorted (· ≤ ·)) :
    RateLimiter.windowCount
      (RateLimiter.execWaits (RateLimiter.NewRateLimiter requestsPerSecond t0) ts).2 a ≤
      2 * requestsPerSecond := by
  have hsecpos : 0 < RateLimiter.second := by norm_num [RateLimiter.second]
  have hrle : requestsPerSecond ≤ RateLimiter.second := Nat.le_of_dvd hsecpos hdvd
  have hι : 0 < RateLimiter.second / requestsPerSecond := Nat.div_pos hrle hr
  set s0 := RateLimiter.NewRateLimiter requestsPerSecond t0 with hs0
  set A := ts.takeWhile (fun t => decide (t < a)) with hA
  set rest := ts.dropWhile (fun t => decide (t < a)) with hrest
  set M := rest.takeWhile (fun t => decide (t < a + RateLimiter.second)) with hM
  set Z := rest.dropWhile (fun t => decide (t < a + RateLimiter.second)) with hZ
  have h1 : M ++ Z = rest := List.takeWhile_append_dropWhile _ _
  have h2 : A ++ rest = ts := List.takeWhile_append_dropWhile _ _
  have hts : ts = A ++ (M ++ Z) := by rw [h1, h2]
  have hrestSorted : rest.Sorted (· ≤ ·) := by
    rw [hrest]
    exact List.Pairwise.sublist (List.dropWhile_sublist _) hsorted
  have hrestGe : ∀ t ∈ rest, a ≤ t := by
    intro t ht
    rw [hrest] at ht
    exact RateLimiter.sorted_dropWhile_ge a ts hsorted t ht
  set sA := (RateLimiter.execWaits s0 A).1 with hsA
  have happ1 := RateLimiter.execWaits_append A (M ++ Z) s0
  have happ2 := RateLimiter.execWaits_append M Z sA
  have hcomps : (RateLimiter.execWaits s0 ts).2 =
      (RateLimiter.execWaits s0 A).2 ++
        ((RateLimiter.execWaits sA M).2 ++
          (RateLimiter.execWaits (RateLimiter.execWaits sA M).1 Z).2) := by
    conv_lhs => rw [hts]
    rw [happ1]
    rw [← hsA, happ2]
  rw [RateLimiter.windowCount, hcomps, List.countP_append, List.countP_append]
  -- completions before the window contribute nothing
  have hcA : (RateLimiter.execWaits s0 A).2.countP
      (fun t => decide (a ≤ t) && decide (t < a + RateLimiter.second)) = 0 := by
    rw [List.countP_eq_zero]
    intro u hu
    have huA : u ∈ A := RateLimiter.execWaits_comps_mem A s0 u hu
    have : u < a := by
      rw [hA] at huA
      simpa using List.mem_takeWhile_imp huA
    simp only [Bool.and_eq_true, decide_eq_true_eq, not_and]
    omega
  -- completions after the window contribute nothing
  have hcZ : (RateLimiter.execWaits (RateLimiter.execWaits sA M).1 Z).2.countP
      (fun t => decide (a ≤ t) && decide (t < a + RateLimiter.second)) = 0 := by
    rw [List.countP_eq_zero]
    intro u hu
    have huZ : u ∈ Z := RateLimiter.execWaits_comps_mem Z _ u hu
    have : a + RateLimiter.second ≤ u := by
      rw [hZ] at huZ
      exact RateLimiter.sorted_dropWhile_ge _ rest hrestSorted u huZ
    simp only [Bool.and_eq_true, decide_eq_true_eq, not_and]
    omega
  rw [hcA, hcZ]
  -- the in-window segment obeys the window bound from the state after `A`
  have hιA : 0 < sA.refillInterval := by
    rw [hsA, RateLimiter.execWaits_fst_refillInterval]
    exact hι
  have htokA : sA.tokens ≤ sA.maxTokens := by
    rw [hsA]
    exact RateLimiter.execWaits_fst_tokens_le A s0 (le_refl _)
  have hWM : ∀ t ∈ M, a ≤ t ∧ t < a + RateLimiter.second := by
    intro t ht
    have htrest : t ∈ rest := by
      rw [hM] at ht
      exact (List.takeWhile_sublist _).mem ht
    refine ⟨hrestGe t htrest, ?_⟩
    rw [hM] at ht
    simpa using List.mem_takeWhile_imp ht
  have hbound := RateLimiter.numComps_window_le a M sA hιA htokA hWM
  have hmaxA : sA.maxTokens = requestsPerSecond := by
    rw [hsA, RateLimiter.execWaits_fst_maxTokens]
    rfl
  have hintA : sA.refillInterval = RateLimiter.second / requestsPerSecond := by
    rw [hsA, RateLimiter.execWaits_fst_refillInterval]
    rfl
  rw [hmaxA, hintA] at hbound
  -- with r dividing one second, (second - 1) / (second / r) = r - 1
  have hseceq : requestsPerSecond * (RateLimiter.second / requestsPerSecond) =
      RateLimiter.second := Nat.mul_div_cancel' hdvd
  have hkey : (RateLimiter.second - 1) / (RateLimiter.second / requestsPerSecond) =
      requestsPerSecond - 1 := by
    have h3 : (requestsPerSecond - 1) * (RateLimiter.second / requestsPerSecond) =
        requestsPerSecond * (RateLimiter.second / requestsPerSecond) -
          RateLimiter.second / requestsPerSecond := Nat.sub_one_mul _ _
    have hcomm : (RateLimiter.second / requestsPerSecond) * (requestsPerSecond - 1) =
        (requestsPerSecond - 1) * (RateLimiter.second / requestsPerSecond) :=
      Nat.mul_comm _ _
    have hle : RateLimiter.second / requestsPerSecond ≤
        requestsPerSecond * (RateLimiter.second / requestsPerSecond) :=
      Nat.le_mul_of_pos_left _ hr
    have h4 : RateLimiter.second - 1 =
        (RateLimiter.second / requestsPerSecond) * (requestsPerSecond - 1) +
          (RateLimiter.second / requestsPerSecond - 1) := by omega
    rw [h4, Nat.mul_add_div hι, Nat.div_eq_of_lt (by omega)]
    omega
  rw [hkey] at hbound
  have hcM : (RateLimiter.execWaits sA M).2.countP
      (fun t => decide (a ≤ t) && decide (t < a + RateLimiter.second)) ≤
      (RateLimiter.execWaits sA M).2.length := List.countP_le_length _
  have hlen : (RateLimiter.execWaits sA M).2.length = RateLimiter.numComps sA M := rfl
  omega

/-- Witness for `wait_window_bound` at rate 2 on a concrete check schedule. -/
theorem wait_window_bound_witness :
    RateLimiter.windowCount
      (RateLimiter.execWaits (RateLimiter.NewRateLimiter 2 0) [1, 1, 500000000]).2 0 ≤
      2 * 2 :=
  wait_window_bound 2 0 0 [1, 1, 500000000] (by decide) (by decide) (by decide)

/-- C9: after every `Wait` the retained request-timestamp ring holds at most
100 entries, so the trailing one-minute count reported by `GetStats` never
exceeds 100, and it under-reports whenever more than 100 requests actually
completed in the last minute. -/
theorem getStats_ring_bounded (completions : List ℕ) (now : ℕ) :
    (RateLimiter.requestHistory completions).length ≤ 100 ∧
    (RateLimiter.GetStats (RateLimiter.requestHistory completions) now).1 ≤ 100 ∧
    (100 < completions.countP (RateLimiter.inLastMinute now) →
      (RateLimiter.GetStats (RateLimiter.requestHistory completions) now).1 <
        completions.countP (RateLimiter.inLastMinute now)) := by
  refine ⟨RateLimiter.requestHistory_length_le completions, ?_, ?_⟩
  · exact le_trans (List.countP_le_length _)
      (RateLimiter.requestHistory_length_le completions)
  · intro h
    exact lt_of_le_of_lt
      (le_trans (List.countP_le_length _) (RateLimiter.requestHistory_length_le completions)) h

set_option maxRecDepth 4000 in
/-- Witness for `getStats_ring_bounded`: 101 completions inside the last
minute are reported as at most 100. -/
theorem getStats_ring_bounded_witness :
    (RateLimiter.requestHistory (List.replicate 101 1)).length ≤ 100 ∧
    (RateLimiter.GetStats (RateLimiter.requestHistory (List.replicate 101 1)) 2).1 ≤ 100 ∧
    (RateLimiter.GetStats (RateLimiter.requestHistory (List.replicate 101 1)) 2).1 <
      (List.replicate 101 1).countP (RateLimiter.inLastMinute 2) := by
  obtain ⟨h1, h2, h3⟩ := getStats_ring_bounded (List.replicate 101 1) 2
  exact ⟨h1, h2, h3 (by decide)⟩

/-- C3 counterexample: with rate `r = 2`, three sequential `Wait` calls
complete at times 1, 1 and 5·10⁸ ns — three completions inside the single
one-second window `[0, 10⁹)`, exceeding `r`.  (The bucket starts full, so a
burst of `r` completions plus refilled tokens can exceed `r` per window.) -/
theorem wait_burst_exceeds_rate :
    RateLimiter.windowCount
      (RateLimiter.execWaits (RateLimiter.NewRateLimiter 2 0) [1, 1, 500000000]).2 0 = 3 ∧
    2 < 3 := by
  refine ⟨by decide, by decide⟩

/-- C1: for an organization whose latest financial record has total spending
100000, charitable-activity spend 80000 and reserves 30000, that has a
website, financial data and 4 trustees and no filing-history rows,
`CalculateScore` returns efficiency 80, financial-health 100, transparency
82.5, governance 100 and overall 88.5. -/
theorem calculateScore_scenario :
    (Scoring.CalculateScore Scoring.scenarioInput).efficiencyScore = 80 ∧
    (Scoring.CalculateScore Scoring.scenarioInput).financialHealthScore = 100 ∧
    (Scoring.CalculateScore Scoring.scenarioInput).transparencyScore = 165 / 2 ∧
    (Scoring.CalculateScore Scoring.scenarioInput).governanceScore = 100 ∧
    (Scoring.CalculateScore Scoring.scenarioInput).overallScore = 177 / 2 := by
  have hw : ¬(("https://example.org" : String) = "") := by decide
  refine ⟨?_, ?_, ?_, ?_, ?_⟩ <;>
    norm_num [Scoring.CalculateScore, Scoring.scenarioInput,
      Scoring.calculateFilingTimeliness, Scoring.calculateFilingConsistency,
      Scoring.calculateAccountsQuality, min_def, max_def, hw]

/-- C10: when the latest financial record has charitable-activities spend
exactly 0 and positive total spending, `CalculateScore` treats the spending
breakdown as absent and assigns the neutral efficiency score 60 (not 0);
the breakdown counts as present only when the charitable spend is strictly
positive. -/
theorem efficiency_neutral_on_zero_breakdown (input : Scoring.ScoreInput)
    (fin : Scoring.Financial) (hfin : input.financial = some fin)
    (hzero : fin.charitableActivitiesSpend = 0) (hpos : 0 < fin.totalSpending) :
    (Scoring.CalculateScore input).efficiencyScore = 60 ∧
      (Scoring.hasSpendingBreakdown input.financial ↔
        0 < fin.charitableActivitiesSpend) := by
  constructor
  · simp only [Scoring.CalculateScore, hfin, hzero]
    norm_num [hpos]
  · simp [Scoring.hasSpendingBreakdown, hfin]

/-- Witness for `efficiency_neutral_on_zero_breakdown` at a concrete input. -/
theorem efficiency_neutral_on_zero_breakdown_witness :
    (Scoring.CalculateScore
        { website := ""
          financial := some
            { totalIncome := 10
              totalSpending := 5
              charitableActivitiesSpend := 0
              reserves := 0
              assets := 0
              trustees := 0 }
          trusteeCount := 0
          filingRows := []
          fiveYearCutoff := 0
          threeYearCutoff := 0
          since365 := false }).efficiencyScore = 60 :=
  (efficiency_neutral_on_zero_breakdown _ _ rfl rfl (by norm_num)).1

/-- C5: a 404 response on any attempt makes `doRequest` return the
distinguished not-found error immediately: exactly one HTTP request is sent
from that point and no retry is attempted, whatever the remaining retry
budget (`rest`) — and hence for every request kind, since `FetchCharityDetails`,
`SearchByName`, `SearchByNumber` and `FetchFinancialHistory` all go through
`doRequest`. -/
theorem doRequest_notFound_immediate (rest : List Api.Response) :
    Api.doRequestLoop (Api.Response.status 404 :: rest) =
      (Api.RequestResult.notFound, 1) := by
  simp [Api.doRequestLoop]

/-- C7 counterexample: with exactly one configured key, `getNextAPIKey`
returns early and records nothing — after an attempt at time 5 the key's
total-request counter is still 0, not the 1 the claim requires, and its
last-used time is untouched. -/
theorem getNextAPIKey_single_key_no_stats :
    (((Api.getNextAPIKey 5
        { apiKeys := ["k1"], keyIndex := 0,
          keyStats := fun _ => ⟨0, 0, 0⟩ }).2.keyStats "k1").totalRequests = 0 ∧
      ((Api.getNextAPIKey 5
        { apiKeys := ["k1"], keyIndex := 0,
          keyStats := fun _ => ⟨0, 0, 0⟩ }).2.keyStats "k1").lastUsed = 0) ∧
    (0 : ℕ) ≠ 1 := by
  refine ⟨⟨rfl, rfl⟩, by decide⟩

/-- C7 amended: when at least two keys are configured, every request attempt
increments the selected key's total-request counter and sets its last-used
time; with exactly one key, `getNextAPIKey` returns the key without touching
its stats. -/
theorem getNextAPIKey_records_attempt (now : ℕ) (c : Api.ClientState)
    (h2 : 2 ≤ c.apiKeys.length) :
    ((Api.getNextAPIKey now c).2.keyStats (Api.getNextAPIKey now c).1).totalRequests =
      (c.keyStats (Api.getNextAPIKey now c).1).totalRequests + 1 ∧
    ((Api.getNextAPIKey now c).2.keyStats (Api.getNextAPIKey now c).1).lastUsed = now := by
  have hne : ¬ c.apiKeys.length = 1 := by omega
  simp [Api.getNextAPIKey, hne]

/-- Witness for `getNextAPIKey_records_attempt` on a two-key client. -/
theorem getNextAPIKey_records_attempt_witness :
    ((Api.getNextAPIKey 7
        { apiKeys := ["k1", "k2"], keyIndex := 0,
          keyStats := fun _ => ⟨0, 0, 0⟩ }).2.keyStats
      (Api.getNextAPIKey 7
        { apiKeys := ["k1", "k2"], keyIndex := 0,
          keyStats := fun _ => ⟨0, 0, 0⟩ }).1).totalRequests =
      (({ apiKeys := ["k1", "k2"], keyIndex := 0,
          keyStats := fun _ => ⟨0, 0, 0⟩ } : Api.ClientState).keyStats
        (Api.getNextAPIKey 7
          { apiKeys := ["k1", "k2"], keyIndex := 0,
            keyStats := fun _ => ⟨0, 0, 0⟩ }).1).totalRequests + 1 ∧
    ((Api.getNextAPIKey 7
        { apiKeys := ["k1", "k2"], keyIndex := 0,
          keyStats := fun _ => ⟨0, 0, 0⟩ }).2.keyStats
      (Api.getNextAPIKey 7
        { apiKeys := ["k1", "k2"], keyIndex := 0,
          keyStats := fun _ => ⟨0, 0, 0⟩ }).1).lastUsed = 7 :=
  getNextAPIKey_records_attempt 7
    { apiKeys := ["k1", "k2"], keyIndex := 0, keyStats := fun _ => ⟨0, 0, 0⟩ }
    (by decide)

/-- C8 counterexample: the 8-byte key "shortkey" is returned by
`GetKeyStats`'s mask completely unmasked, not in the first-8/"..."/last-4
form the claim requires for every key length. -/
theorem maskKey_short_key_unmasked :
    Api.maskKey "shortkey" = "shortkey" ∧
    Api.specMaskKey "shortkey" = "shortkey...tkey" ∧
    Api.maskKey "shortkey" ≠ Api.specMaskKey "shortkey" := by
  refine ⟨by decide, by decide, by decide⟩

/-- C8 amended: `GetKeyStats` lists every configured key under its masked
name with its stats; keys longer than 8 characters are masked to the first
8, "...", and the last 4, while keys of 8 or fewer characters are returned
whole (so nothing beyond their first 8 characters is exposed, but no mask
is applied either). -/
theorem getKeyStats_masking (c : Api.ClientState) (key : String)
    (hmem : key ∈ c.apiKeys) :
    (Api.maskKey key, c.keyStats key) ∈ Api.GetKeyStats c ∧
    (8 < key.length → Api.maskKey key = Api.specMaskKey key) ∧
    (key.length ≤ 8 → Api.maskKey key = key) := by
  refine ⟨List.mem_map_of_mem _ hmem, ?_, ?_⟩
  · intro h
    simp only [Api.maskKey, Api.specMaskKey]
    rw [if_pos h]
  · intro h
    simp only [Api.maskKey]
    rw [if_neg (by omega)]

/-- Witness for `getKeyStats_masking` on a 12-character key. -/
theorem getKeyStats_masking_witness :
    (Api.maskKey "abcdefghijkl",
      (({ apiKeys := ["abcdefghijkl"], keyIndex := 0,
          keyStats := fun _ => ⟨3, 1, 9⟩ } : Api.ClientState)).keyStats "abcdefghijkl") ∈
      Api.GetKeyStats
        { apiKeys := ["abcdefghijkl"], keyIndex := 0, keyStats := fun _ => ⟨3, 1, 9⟩ } ∧
    (8 < ("abcdefghijkl" : String).length →
      Api.maskKey "abcdefghijkl" = Api.specMaskKey "abcdefghijkl") ∧
    (("abcdefghijkl" : String).length ≤ 8 →
      Api.maskKey "abcdefghijkl" = "abcdefghijkl") :=
  getKeyStats_masking
    { apiKeys := ["abcdefghijkl"], keyIndex := 0, keyStats := fun _ => ⟨3, 1, 9⟩ }
    "abcdefghijkl" (by decide)

/-- C2 counterexample: with range 1..100, no explicit resume argument and a
persisted checkpoint of 50, the crawl dispatches 50 first — the checkpointed
identifier itself, not 51 as the claim states. -/
theorem crawler_resumes_at_checkpoint_not_successor :
    (Crawler.dispatched ⟨1, 100, 0⟩ (some 50)).head? = some 50 ∧ (50 : ℕ) ≠ 51 := by
  refine ⟨by decide, by decide⟩

/-- C2 amended: with no explicit resume argument and a positive persisted
checkpoint `c` within the requested range, a restarted crawl resumes
dispatching at `c` itself — the checkpointed identifier is dispatched once
more (and then skipped as already present) — not at the range start. -/
theorem crawler_resume_from_checkpoint (start endC c : ℕ)
    (hc : 0 < c) (h1 : start ≤ c) (h2 : c ≤ endC) :
    Crawler.determineStart ⟨start, endC, 0⟩ (some c) = c ∧
    (Crawler.dispatched ⟨start, endC, 0⟩ (some c)).head? = some c := by
  have hds : Crawler.determineStart ⟨start, endC, 0⟩ (some c) = c := by
    simp only [Crawler.determineStart, Crawler.loadCheckpoint, Option.getD_some]
    rw [if_neg (by omega), if_pos ⟨hc, h1, h2⟩]
  refine ⟨hds, ?_⟩
  rw [Crawler.dispatched, hds]
  rcases h : endC + 1 - c with _ | n
  · omega
  · simp [List.range'_succ]

/-- Witness for `crawler_resume_from_checkpoint` with range 1..100 and
checkpoint 50. -/
theorem crawler_resume_from_checkpoint_witness :
    Crawler.determineStart ⟨1, 100, 0⟩ (some 50) = 50 ∧
    (Crawler.dispatched ⟨1, 100, 0⟩ (some 50)).head? = some 50 :=
  crawler_resume_from_checkpoint 1 100 50 (by decide) (by decide) (by decide)

namespace Importer

theorem insertFinancialData_charities (now : ℕ) (r : CharityRecord) (db : DB) :
    (insertFinancialData now r db).charities = db.charities := by
  unfold insertFinancialData
  cases r.latestAccFinPeriodEndDate <;> rfl

theorem insertFinancialData_trustees (now : ℕ) (r : CharityRecord) (db : DB) :
    (insertFinancialData now r db).trustees = db.trustees := by
  unfold insertFinancialData
  cases r.latestAccFinPeriodEndDate <;> rfl

theorem importCharityStep_counters (now : ℕ) (st : DB × ImportProgress)
    (elem : Option CharityRecord) :
    ((importCharityStep now st elem).2.successRecords =
      st.2.successRecords + (if charityElemOk elem then 1 else 0)) ∧
    ((importCharityStep now st elem).2.failedRecords =
      st.2.failedRecords + (if elem.isNone then 1 else 0)) ∧
    ((importCharityStep now st elem).2.processedRecords =
      st.2.processedRecords + (if elem.isSome then 1 else 0)) := by
  rcases elem with _ | r
  · simp [importCharityStep, charityElemOk]
  · by_cases h : r.registeredCharityNumber = 0
    · simp [importCharityStep, charityElemOk, h]
    · simp [importCharityStep, charityElemOk, h]

theorem importCharities_counters (now : ℕ) (elems : List (Option CharityRecord)) :
    ∀ st : DB × ImportProgress,
      ((elems.foldl (importCharityStep now) st).2.successRecords =
        st.2.successRecords + elems.countP charityElemOk) ∧
      ((elems.foldl (importCharityStep now) st).2.failedRecords =
        st.2.failedRecords + elems.countP (fun e => e.isNone)) ∧
      ((elems.foldl (importCharityStep now) st).2.processedRecords =
        st.2.processedRecords + elems.countP (fun e => e.isSome)) := by
  induction elems with
  | nil => intro st; simp
  | cons e elems ih =>
      intro st
      obtain ⟨h1, h2, h3⟩ := importCharityStep_counters now st e
      obtain ⟨ih1, ih2, ih3⟩ := ih (importCharityStep now st e)
      rw [List.foldl_cons]
      refine ⟨?_, ?_, ?_⟩ <;> simp only [List.countP_cons] <;> omega

theorem importCharityStep_charities (now : ℕ) (k : ℕ) (st : DB × ImportProgress)
    (elem : Option CharityRecord) :
    (importCharityStep now st elem).1.charities k =
      (writeCh now k elem).or (st.1.charities k) := by
  rcases elem with _ | r
  · simp [importCharityStep, writeCh, Option.none_or]
  · by_cases h : r.registeredCharityNumber = 0
    · simp [importCharityStep, writeCh, h, Option.none_or]
    · by_cases hlat : r.latestIncome.isSome ∧ r.latestExpenditure.isSome
      · by_cases hk : k = r.organisationNumber
        · simp [importCharityStep, writeCh, h, hlat, hk, insertFinancialData_charities]
        · simp [importCharityStep, writeCh, h, hlat, hk, insertFinancialData_charities,
            Option.none_or]
      · by_cases hk : k = r.organisationNumber
        · simp [importCharityStep, writeCh, h, hlat, hk]
        · simp [importCharityStep, writeCh, h, hlat, hk, Option.none_or]

theorem importCharityStep_financials (now : ℕ) (k : ℕ × String) (st : DB × ImportProgress)
    (elem : Option CharityRecord) :
    (importCharityStep now st elem).1.financials k =
      (writeFin now k elem).or (st.1.financials k) := by
  rcases elem with _ | r
  · simp [importCharityStep, writeFin, Option.none_or]
  · rcases hend : r.latestAccFinPeriodEndDate with _ | endDate
    · by_cases h : r.registeredCharityNumber = 0
      · simp [importCharityStep, writeFin, hend, h, Option.none_or]
      · by_cases hlat : r.latestIncome.isSome ∧ r.latestExpenditure.isSome
        · simp [importCharityStep, writeFin, insertFinancialData, hend, h, hlat,
            Option.none_or]
        · simp [importCharityStep, writeFin, hend, h, hlat, Option.none_or]
    · by_cases h : r.registeredCharityNumber = 0
      · simp [importCharityStep, writeFin, hend, h, Option.none_or]
      · by_cases hlat : r.latestIncome.isSome ∧ r.latestExpenditure.isSome
        · by_cases hk : k = (r.registeredCharityNumber, parseDate endDate)
          · simp [importCharityStep, writeFin, insertFinancialData, hend, h, hlat, hk]
          · simp [importCharityStep, writeFin, insertFinancialData, hend, h, hlat, hk,
              Option.none_or]
        · simp [importCharityStep, writeFin, hend, h, hlat, Option.none_or]

theorem importCharityStep_trustees (now : ℕ) (st : DB × ImportProgress)
    (elem : Option CharityRecord) :
    (importCharityStep now st elem).1.trustees = st.1.trustees := by
  rcases elem with _ | r
  · rfl
  · by_cases h : r.registeredCharityNumber = 0
    · simp [importCharityStep, h]
    · by_cases hlat : r.latestIncome.isSome ∧ r.latestExpenditure.isSome
      · simp [importCharityStep, h, hlat, insertFinancialData_trustees]
      · simp [importCharityStep, h, hlat]

theorem importTrusteeStep_trustees (now : ℕ) (k : ℕ × String) (st : DB × ImportProgress)
    (elem : Option TrusteeRecord) :
    (importTrusteeStep now st elem).1.trustees k =
      (writeTr now k elem).or (st.1.trustees k) := by
  rcases elem with _ | r
  · simp [importTrusteeStep, writeTr, Option.none_or]
  · by_cases h : r.registeredCharityNumber = 0 ∨ r.trusteeName = ""
    · simp [importTrusteeStep, writeTr, h, Option.none_or]
    · by_cases hk : k = (r.registeredCharityNumber, r.trusteeName)
      · simp [importTrusteeStep, writeTr, h, hk]
      · simp [importTrusteeStep, writeTr, h, hk, Option.none_or]

theorem importTrusteeStep_charities (now : ℕ) (st : DB × ImportProgress)
    (elem : Option TrusteeRecord) :
    (importTrusteeStep now st elem).1.charities = st.1.charities := by
  rcases elem with _ | r
  · rfl
  · by_cases h : r.registeredCharityNumber = 0 ∨ r.trusteeName = ""
    · simp [importTrusteeStep, h]
    · simp [importTrusteeStep, h]

theorem importTrusteeStep_financials (now : ℕ) (st : DB × ImportProgress)
    (elem : Option TrusteeRecord) :
    (importTrusteeStep now st elem).1.financials = st.1.financials := by
  rcases elem with _ | r
  · rfl
  · by_cases h : r.registeredCharityNumber = 0 ∨ r.trusteeName = ""
    · simp [importTrusteeStep, h]
    · simp [importTrusteeStep, h]

end Importer

namespace Importer

theorem option_or_assoc {α : Type} (a b c : Option α) : a.or (b.or c) = (a.or b).or c := by
  cases a <;> rfl

theorem option_or_self_assoc {α : Type} (a b : Option α) : a.or (a.or b) = a.or b := by
  cases a <;> rfl

theorem option_or_congr {α β : Type} (g : α → β) (a1 a2 b1 b2 : Option α)
    (ha : a2.isSome = a1.isSome) (ham : a2.map g = a1.map g)
    (hb : b2.isSome = b1.isSome) (hbm : b2.map g = b1.map g) :
    ((a2.or b2).isSome = (a1.or b1).isSome) ∧ ((a2.or b2).map g = (a1.or b1).map g) := by
  cases a2 <;> cases a1 <;> simp_all

theorem lastWrite_cons {α β : Type} (w : β → Option α) (e : β) (l : List β) :
    lastWrite w (e :: l) = (lastWrite w l).or (w e) := rfl

theorem lastWrite_congr {α β γ : Type} (g : α → β) (w1 w2 : γ → Option α)
    (h : ∀ e, ((w2 e).isSome = (w1 e).isSome) ∧ ((w2 e).map g = (w1 e).map g)) :
    ∀ elems : List γ,
      ((lastWrite w2 elems).isSome = (lastWrite w1 elems).isSome) ∧
      ((lastWrite w2 elems).map g = (lastWrite w1 elems).map g) := by
  intro elems
  induction elems with
  | nil => simp [lastWrite]
  | cons e l ih =>
      rw [lastWrite_cons, lastWrite_cons]
      exact option_or_congr g _ _ _ _ ih.1 ih.2 (h e).1 (h e).2

theorem upsert_twice_stable {α β : Type} (g : α → β) (a1 a2 d : Option α)
    (hs : a2.isSome = a1.isSome) (hm : a2.map g = a1.map g) :
    ((a2.or (a1.or d)).isSome = (a1.or d).isSome) ∧
    ((a2.or (a1.or d)).map g = (a1.or d).map g) := by
  cases a2 <;> cases a1 <;> simp_all

theorem importCharities_lookup_charities (now : ℕ) (elems : List (Option CharityRecord)) :
    ∀ (st : DB × ImportProgress) (k : ℕ),
      (elems.foldl (importCharityStep now) st).1.charities k =
        (lastWrite (writeCh now k) elems).or (st.1.charities k) := by
  induction elems with
  | nil => intro st k; simp [lastWrite, Option.none_or]
  | cons e elems ih =>
      intro st k
      rw [List.foldl_cons, ih (importCharityStep now st e) k,
        importCharityStep_charities now k st e, lastWrite_cons]
      exact option_or_assoc _ _ _

theorem importCharities_lookup_financials (now : ℕ) (elems : List (Option CharityRecord)) :
    ∀ (st : DB × ImportProgress) (k : ℕ × String),
      (elems.foldl (importCharityStep now) st).1.financials k =
        (lastWrite (writeFin now k) elems).or (st.1.financials k) := by
  induction elems with
  | nil => intro st k; simp [lastWrite, Option.none_or]
  | cons e elems ih =>
      intro st k
      rw [List.foldl_cons, ih (importCharityStep now st e) k,
        importCharityStep_financials now k st e, lastWrite_cons]
      exact option_or_assoc _ _ _

theorem importCharities_keeps_trustees (now : ℕ) (elems : List (Option CharityRecord)) :
    ∀ st : DB × ImportProgress,
      (elems.foldl (importCharityStep now) st).1.trustees = st.1.trustees := by
  induction elems with
  | nil => intro st; rfl
  | cons e elems ih =>
      intro st
      rw [List.foldl_cons, ih (importCharityStep now st e),
        importCharityStep_trustees now st e]

theorem importTrustees_lookup_trustees (now : ℕ) (elems : List (Option TrusteeRecord)) :
    ∀ (st : DB × ImportProgress) (k : ℕ × String),
      (elems.foldl (importTrusteeStep now) st).1.trustees k =
        (lastWrite (writeTr now k) elems).or (st.1.trustees k) := by
  induction elems with
  | nil => intro st k; simp [lastWrite, Option.none_or]
  | cons e elems ih =>
      intro st k
      rw [List.foldl_cons, ih (importTrusteeStep now st e) k,
        importTrusteeStep_trustees now k st e, lastWrite_cons]
      exact option_or_assoc _ _ _

theorem importTrustees_keeps_charities (now : ℕ) (elems : List (Option TrusteeRecord)) :
    ∀ st : DB × ImportProgress,
      (elems.foldl (importTrusteeStep now) st).1.charities = st.1.charities := by
  induction elems with
  | nil => intro st; rfl
  | cons e elems ih =>
      intro st
      rw [List.foldl_cons, ih (importTrusteeStep now st e),
        importTrusteeStep_charities now st e]

theorem importTrustees_keeps_financials (now : ℕ) (elems : List (Option TrusteeRecord)) :
    ∀ st : DB × ImportProgress,
      (elems.foldl (importTrusteeStep now) st).1.financials = st.1.financials := by
  induction elems with
  | nil => intro st; rfl
  | cons e elems ih =>
      intro st
      rw [List.foldl_cons, ih (importTrusteeStep now st e),
        importTrusteeStep_financials now st e]

theorem writeCh_time (t1 t2 : ℕ) (k : ℕ) (e : Option CharityRecord) :
    ((writeCh t2 k e).isSome = (writeCh t1 k e).isSome) ∧
    ((writeCh t2 k e).map charityContent = (writeCh t1 k e).map charityContent) := by
  rcases e with _ | r
  · simp [writeCh]
  · by_cases h : r.registeredCharityNumber ≠ 0 ∧ k = r.organisationNumber
    · simp [writeCh, h, charityContent, charityRowOf]
    · simp [writeCh, h]

theorem writeFin_time (t1 t2 : ℕ) (k : ℕ × String) (e : Option CharityRecord) :
    ((writeFin t2 k e).isSome = (writeFin t1 k e).isSome) ∧
    ((writeFin t2 k e).map finContent = (writeFin t1 k e).map finContent) := by
  rcases e with _ | r
  · simp [writeFin]
  · rcases hend : r.latestAccFinPeriodEndDate with _ | endDate
    · simp [writeFin, hend]
    · by_cases h : r.registeredCharityNumber ≠ 0 ∧
          (r.latestIncome.isSome ∧ r.latestExpenditure.isSome) ∧
          k = (r.registeredCharityNumber, parseDate endDate)
      · simp [writeFin, hend, h, finContent, finRowOf]
      · simp [writeFin, hend, h]

theorem writeTr_time (t1 t2 : ℕ) (k : ℕ × String) (e : Option TrusteeRecord) :
    ((writeTr t2 k e).isSome = (writeTr t1 k e).isSome) := by
  rcases e with _ | r
  · simp [writeTr]
  · simp only [writeTr]
    split <;> simp

end Importer

namespace Importer

theorem countP_isSome_isNone {α : Type} (l : List (Option α)) :
    l.countP (fun e => e.isSome) + l.countP (fun e => e.isNone) = l.length := by
  induction l with
  | nil => simp
  | cons e l ih => rcases e with _ | v <;> simp [List.countP_cons] <;> omega

theorem DB_ext {d1 d2 : DB} (h1 : d1.charities = d2.charities)
    (h2 : d1.financials = d2.financials) (h3 : d1.trustees = d2.trustees) : d1 = d2 := by
  cases d1; cases d2; simp_all

theorem option_map_const_eq {α : Type} (c : ℕ) (a b : Option α)
    (h : a.isSome = b.isSome) : a.map (fun _ => c) = b.map (fun _ => c) := by
  cases a <;> cases b <;> simp_all

end Importer

namespace Importer

/-- A JSON syntax error pins the loop: whatever the fuel, every iteration
re-reads the same stuck element, so the loop never returns. -/
theorem importLoopFuel_stuck (now : ℕ) (rest : List DecodeResult) :
    ∀ (fuel : ℕ) (st : DB × ImportProgress),
      importLoopFuel now fuel (DecodeResult.errStuck :: rest) st = none := by
  intro fuel
  induction fuel with
  | zero => intro st; rfl
  | succ n ih =>
      intro st
      simp only [importLoopFuel]
      exact ih _

/-- `importStream` summarises the fuel loop soundly: a stream it calls
divergent exhausts every fuel bound, and a stream it calls complete is
computed by the loop within one iteration per element. -/
theorem importStream_sound (now : ℕ) : ∀ (elems : List DecodeResult)
    (st : DB × ImportProgress),
    (importStream now elems st = none →
      ∀ fuel, importLoopFuel now fuel elems st = none) ∧
    ∀ res, importStream now elems st = some res →
      importLoopFuel now elems.length elems st = some res := by
  intro elems
  induction elems with
  | nil =>
      intro st
      refine ⟨fun h => ?_, fun res h => ?_⟩
      · simp [importStream] at h
      · simpa [importStream, importLoopFuel] using h
  | cons e rest ih =>
      intro st
      cases e with
      | ok r =>
          refine ⟨fun h fuel => ?_, fun res h => ?_⟩
          · cases fuel with
            | zero => rfl
            | succ n =>
                simp only [importLoopFuel]
                exact (ih _).1 (by simpa [importStream] using h) n
          · simp only [List.length_cons, importLoopFuel]
            exact (ih _).2 res (by simpa [importStream] using h)
      | errAdvance =>
          refine ⟨fun h fuel => ?_, fun res h => ?_⟩
          · cases fuel with
            | zero => rfl
            | succ n =>
                simp only [importLoopFuel]
                exact (ih _).1 (by simpa [importStream] using h) n
          · simp only [List.length_cons, importLoopFuel]
            exact (ih _).2 res (by simpa [importStream] using h)
      | errStuck =>
          refine ⟨fun h fuel => importLoopFuel_stuck now rest fuel st,
            fun res h => ?_⟩
          simp [importStream] at h

/-- A stream without syntax errors completes, and computes exactly the
per-element import of its decoded elements. -/
theorem importStream_no_stuck (now : ℕ) : ∀ (elems : List DecodeResult)
    (st : DB × ImportProgress), DecodeResult.errStuck ∉ elems →
    importStream now elems st =
      some ((elems.map decodedElem).foldl (importCharityStep now) st) := by
  intro elems
  induction elems with
  | nil => intro st h; rfl
  | cons e rest ih =>
      intro st h
      have hrest : DecodeResult.errStuck ∉ rest :=
        fun hm => h (List.mem_cons_of_mem _ hm)
      cases e with
      | ok r => simpa [importStream, decodedElem] using ih _ hrest
      | errAdvance => simpa [importStream, decodedElem] using ih _ hrest
      | errStuck => exact absurd (List.mem_cons_self _ _) h

/-- A stream that reaches a syntax error diverges, however many decodable
elements precede it. -/
theorem importStream_stuck_after_ok (now : ℕ) (rest : List DecodeResult) :
    ∀ (pre : List CharityRecord) (st : DB × ImportProgress),
      importStream now
        (pre.map DecodeResult.ok ++ DecodeResult.errStuck :: rest) st = none := by
  intro pre
  induction pre with
  | nil => intro st; rfl
  | cons p pre ih =>
      intro st
      simp only [List.map_cons, List.cons_append, importStream]
      exact ih _

/-- Skipped-record step counter. -/
theorem importCharityStep_skipped (now : ℕ) (st : DB × ImportProgress)
    (elem : Option CharityRecord) :
    (importCharityStep now st elem).2.skippedRecords =
      st.2.skippedRecords + (if charityElemSkipped elem then 1 else 0) := by
  rcases elem with _ | r
  · simp [importCharityStep, charityElemSkipped]
  · by_cases h : r.registeredCharityNumber = 0
    · simp [importCharityStep, charityElemSkipped, h]
    · simp [importCharityStep, charityElemSkipped, h]

/-- Skipped-record run counter: one per decodable record with charity
number 0. -/
theorem importCharities_skipped (now : ℕ) (elems : List (Option CharityRecord)) :
    ∀ st : DB × ImportProgress,
      (elems.foldl (importCharityStep now) st).2.skippedRecords =
        st.2.skippedRecords + elems.countP charityElemSkipped := by
  induction elems with
  | nil => intro st; simp
  | cons e elems ih =>
      intro st
      have h1 := importCharityStep_skipped now st e
      have h2 := ih (importCharityStep now st e)
      rw [List.foldl_cons]
      simp only [List.countP_cons]
      omega

/-- Success test through the decoded view: on a list of decoded records it
is the nonzero charity number test. -/
theorem countP_map_some_ok (l : List CharityRecord) :
    (l.map some).countP charityElemOk =
      l.countP (fun r => decide (r.registeredCharityNumber ≠ 0)) := by
  rw [List.countP_map]
  rfl

/-- Skip test through the decoded view: on a list of decoded records it is
the zero charity number test. -/
theorem countP_map_some_skipped (l : List CharityRecord) :
    (l.map some).countP charityElemSkipped =
      l.countP (fun r => decide (r.registeredCharityNumber = 0)) := by
  rw [List.countP_map]
  rfl

/-- Success count of a decoded stream with one unmarshal failure. -/
theorem countP_decoded_ok (pre post : List CharityRecord) :
    (pre.map some ++ (none : Option CharityRecord) :: post.map some).countP
      charityElemOk =
      (pre ++ post).countP (fun r => decide (r.registeredCharityNumber ≠ 0)) := by
  rw [List.countP_append, List.countP_cons, countP_map_some_ok, countP_map_some_ok,
    List.countP_append]
  simp [charityElemOk]

/-- Skip count of a decoded stream with one unmarshal failure. -/
theorem countP_decoded_skipped (pre post : List CharityRecord) :
    (pre.map some ++ (none : Option CharityRecord) :: post.map some).countP
      charityElemSkipped =
      (pre ++ post).countP (fun r => decide (r.registeredCharityNumber = 0)) := by
  rw [List.countP_append, List.countP_cons, countP_map_some_skipped,
    countP_map_some_skipped, List.countP_append]
  simp [charityElemSkipped]

/-- Failure count of a decoded stream with one unmarshal failure. -/
theorem countP_decoded_failed (pre post : List CharityRecord) :
    (pre.map some ++ (none : Option CharityRecord) :: post.map some).countP
      (fun e => e.isNone) = 1 := by
  have h1 : ∀ l : List CharityRecord,
      (l.map some).countP (fun e => e.isNone) = 0 := by
    intro l
    rw [List.countP_map]
    exact congrFun List.countP_false l
  rw [List.countP_append, List.countP_cons, h1, h1]
  rfl

/-- Processed count of a decoded stream with one unmarshal failure: every
decodable record. -/
theorem countP_decoded_processed (pre post : List CharityRecord) :
    (pre.map some ++ (none : Option CharityRecord) :: post.map some).countP
      (fun e => e.isSome) = pre.length + post.length := by
  have h1 : ∀ l : List CharityRecord,
      (l.map some).countP (fun e => e.isSome) = l.length := by
    intro l
    rw [List.countP_map]
    exact congrFun List.countP_true l
  rw [List.countP_append, List.countP_cons, h1, h1]
  simp

/-- Every decodable record is either a success or a skip: the two charity
number tests partition the list. -/
theorem countP_num_partition (l : List CharityRecord) :
    l.countP (fun r => decide (r.registeredCharityNumber ≠ 0)) +
      l.countP (fun r => decide (r.registeredCharityNumber = 0)) = l.length := by
  induction l with
  | nil => rfl
  | cons r l ih =>
      simp only [List.countP_cons, List.length_cons, decide_not] at ih ⊢
      by_cases h : r.registeredCharityNumber = 0 <;> simp [h] <;> omega

end Importer

/-- C4 counterexample: the claim fails at two concrete inputs.  An array of
2 elements whose second is malformed and whose first decodes but carries
registered charity number 0 finishes with 0 successes (the decodable
record is counted skipped), not n − 1 = 1.  And an array whose first
element is a JSON syntax error followed by one valid record never finishes
at all: `Decode` keeps returning the stored syntax error while `More()`
stays true, so the loop diverges (no fuel bound returns — here 1000
iterations are still running) and the valid element after the malformed
one is lost, never imported. -/
theorem importCharities_malformed_not_tolerated :
    ((Importer.importCharities 0 [some Importer.zeroNumberRecord, none]
        Importer.emptyDB).2.successRecords = 0 ∧
      (Importer.importCharities 0 [some Importer.zeroNumberRecord, none]
        Importer.emptyDB).2.failedRecords = 1 ∧
      (Importer.importCharities 0 [some Importer.zeroNumberRecord, none]
        Importer.emptyDB).2.skippedRecords = 1 ∧
      (0 : ℕ) ≠ ([some Importer.zeroNumberRecord, none] :
        List (Option Importer.CharityRecord)).length - 1) ∧
    Importer.importStream 0
      [Importer.DecodeResult.errStuck,
        Importer.DecodeResult.ok Importer.sampleCharityRecord]
      (Importer.emptyDB, Importer.initialProgress) = none ∧
    Importer.importLoopFuel 0 1000
      [Importer.DecodeResult.errStuck,
        Importer.DecodeResult.ok Importer.sampleCharityRecord]
      (Importer.emptyDB, Importer.initialProgress) = none :=
  ⟨⟨rfl, rfl, rfl, by decide⟩, rfl,
    Importer.importLoopFuel_stuck 0
      [Importer.DecodeResult.ok Importer.sampleCharityRecord] 1000
      (Importer.emptyDB, Importer.initialProgress)⟩

/-- C4 corrected: what one undecodable element does depends on its failure
class.  An element that is well-formed JSON but fails to unmarshal
(`errAdvance`) is consumed: the run completes — later elements are not
lost — the remaining n − 1 decodable records are all processed and
partitioned into successes (nonzero registered charity number) and skips
(charity number 0), and exactly 1 record is counted failed.  A
syntactically malformed element (`errStuck`) is never consumed, so the
loop of the importer never terminates for any fuel bound and the elements
after it are never imported. -/
theorem importCharities_malformed_element (now : ℕ)
    (pre post : List Importer.CharityRecord) (db : Importer.DB) :
    (Importer.importStream now
        (pre.map Importer.DecodeResult.ok ++
          Importer.DecodeResult.errAdvance :: post.map Importer.DecodeResult.ok)
        (db, Importer.initialProgress) =
      some (Importer.importCharities now
        (pre.map some ++ none :: post.map some) db)) ∧
    (Importer.importCharities now (pre.map some ++ none :: post.map some)
        db).2.failedRecords = 1 ∧
    (Importer.importCharities now (pre.map some ++ none :: post.map some)
        db).2.processedRecords =
      (pre.map some ++ (none : Option Importer.CharityRecord) ::
        post.map some).length - 1 ∧
    (Importer.importCharities now (pre.map some ++ none :: post.map some)
        db).2.successRecords =
      (pre ++ post).countP (fun r => decide (r.registeredCharityNumber ≠ 0)) ∧
    (Importer.importCharities now (pre.map some ++ none :: post.map some)
        db).2.skippedRecords =
      (pre ++ post).countP (fun r => decide (r.registeredCharityNumber = 0)) ∧
    (Importer.importCharities now (pre.map some ++ none :: post.map some)
        db).2.successRecords +
      (Importer.importCharities now (pre.map some ++ none :: post.map some)
        db).2.skippedRecords =
      (pre.map some ++ (none : Option Importer.CharityRecord) ::
        post.map some).length - 1 ∧
    ∀ fuel,
      Importer.importLoopFuel now fuel
        (pre.map Importer.DecodeResult.ok ++
          Importer.DecodeResult.errStuck :: post.map Importer.DecodeResult.ok)
        (db, Importer.initialProgress) = none := by
  have hnostuck : Importer.DecodeResult.errStuck ∉
      pre.map Importer.DecodeResult.ok ++
        Importer.DecodeResult.errAdvance :: post.map Importer.DecodeResult.ok := by
    simp [List.mem_append, List.mem_map]
  have hmap : (pre.map Importer.DecodeResult.ok ++
      Importer.DecodeResult.errAdvance ::
        post.map Importer.DecodeResult.ok).map Importer.decodedElem =
      pre.map some ++ none :: post.map some := by
    have hco : Importer.decodedElem ∘ Importer.DecodeResult.ok =
        (some : Importer.CharityRecord → Option Importer.CharityRecord) := rfl
    simp [List.map_append, List.map_map, hco, Importer.decodedElem]
  have hstream := Importer.importStream_no_stuck now
    (pre.map Importer.DecodeResult.ok ++
      Importer.DecodeResult.errAdvance :: post.map Importer.DecodeResult.ok)
    (db, Importer.initialProgress) hnostuck
  rw [hmap] at hstream
  obtain ⟨c1, c2, c3⟩ := Importer.importCharities_counters now
    (pre.map some ++ none :: post.map some) (db, Importer.initialProgress)
  have c4 := Importer.importCharities_skipped now
    (pre.map some ++ none :: post.map some) (db, Importer.initialProgress)
  have hsucc := Importer.countP_decoded_ok pre post
  have hskip := Importer.countP_decoded_skipped pre post
  have hfail := Importer.countP_decoded_failed pre post
  have hproc := Importer.countP_decoded_processed pre post
  have hlen : (pre.map some ++
      (none : Option Importer.CharityRecord) :: post.map some).length =
      pre.length + post.length + 1 := by
    simp only [List.length_append, List.length_map, List.length_cons]
    omega
  have hpart := Importer.countP_num_partition (pre ++ post)
  have hlen2 : (pre ++ post).length = pre.length + post.length := by simp
  have hz1 : ((db, Importer.initialProgress) :
      Importer.DB × Importer.ImportProgress).2.successRecords = 0 := rfl
  have hz2 : ((db, Importer.initialProgress) :
      Importer.DB × Importer.ImportProgress).2.failedRecords = 0 := rfl
  have hz3 : ((db, Importer.initialProgress) :
      Importer.DB × Importer.ImportProgress).2.processedRecords = 0 := rfl
  have hz4 : ((db, Importer.initialProgress) :
      Importer.DB × Importer.ImportProgress).2.skippedRecords = 0 := rfl
  refine ⟨hstream, ?_, ?_, ?_, ?_, ?_,
    fun fuel => (Importer.importStream_sound now
      (pre.map Importer.DecodeResult.ok ++
        Importer.DecodeResult.errStuck :: post.map Importer.DecodeResult.ok)
      (db, Importer.initialProgress)).1
      (Importer.importStream_stuck_after_ok now
        (post.map Importer.DecodeResult.ok) pre (db, Importer.initialProgress))
      fuel⟩
  · show ((pre.map some ++ none :: post.map some).foldl
      (Importer.importCharityStep now)
      (db, Importer.initialProgress)).2.failedRecords = 1
    omega
  · show ((pre.map some ++ none :: post.map some).foldl
      (Importer.importCharityStep now)
      (db, Importer.initialProgress)).2.processedRecords = _
    omega
  · show ((pre.map some ++ none :: post.map some).foldl
      (Importer.importCharityStep now)
      (db, Importer.initialProgress)).2.successRecords = _
    omega
  · show ((pre.map some ++ none :: post.map some).foldl
      (Importer.importCharityStep now)
      (db, Importer.initialProgress)).2.skippedRecords = _
    omega
  · show ((pre.map some ++ none :: post.map some).foldl
        (Importer.importCharityStep now)
        (db, Importer.initialProgress)).2.successRecords +
      ((pre.map some ++ none :: post.map some).foldl
        (Importer.importCharityStep now)
        (db, Importer.initialProgress)).2.skippedRecords = _
    omega

/-- C6 counterexample: importing the same one-record array twice, the second
run at a later wall-clock time, leaves different row content — the
`last_updated` column of the stored charity row now carries the second
run's timestamp. -/
theorem importCharities_second_run_updates_timestamp :
    (Importer.importCharities 1 [some Importer.sampleCharityRecord]
        (Importer.importCharities 0 [some Importer.sampleCharityRecord]
          Importer.emptyDB).1).1.charities 7 ≠
      (Importer.importCharities 0 [some Importer.sampleCharityRecord]
        Importer.emptyDB).1.charities 7 := by
  decide

/-- C6 amended: the imports are upsert-idempotent — importing the same array
twice leaves the store with the same rows (same keys, hence the same row
count) and the same row content except that `last_updated` carries the later
run's wall-clock time; when the two runs read the same clock the stores are
identical.  Stated for the charity import (which writes `charities` and
`financials` and leaves `trustees` alone) and the trustee import (which
writes only `trustees`). -/
theorem streamImporter_idempotent (t1 t2 : ℕ)
    (celems : List (Option Importer.CharityRecord))
    (telems : List (Option Importer.TrusteeRecord)) (db : Importer.DB) :
    (∀ k, ((Importer.importCharities t2 celems
          (Importer.importCharities t1 celems db).1).1.charities k).isSome =
        ((Importer.importCharities t1 celems db).1.charities k).isSome) ∧
    (∀ k, ((Importer.importCharities t2 celems
          (Importer.importCharities t1 celems db).1).1.charities k).map
            Importer.charityContent =
        ((Importer.importCharities t1 celems db).1.charities k).map
          Importer.charityContent) ∧
    (∀ k, ((Importer.importCharities t2 celems
          (Importer.importCharities t1 celems db).1).1.financials k).isSome =
        ((Importer.importCharities t1 celems db).1.financials k).isSome) ∧
    (∀ k, ((Importer.importCharities t2 celems
          (Importer.importCharities t1 celems db).1).1.financials k).map
            Importer.finContent =
        ((Importer.importCharities t1 celems db).1.financials k).map
          Importer.finContent) ∧
    ((Importer.importCharities t2 celems
        (Importer.importCharities t1 celems db).1).1.trustees =
      (Importer.importCharities t1 celems db).1.trustees) ∧
    (t2 = t1 →
      (Importer.importCharities t2 celems
          (Importer.importCharities t1 celems db).1).1 =
        (Importer.importCharities t1 celems db).1) ∧
    (∀ k, ((Importer.importTrustees t2 telems
          (Importer.importTrustees t1 telems db).1).1.trustees k).isSome =
        ((Importer.importTrustees t1 telems db).1.trustees k).isSome) ∧
    ((Importer.importTrustees t2 telems
        (Importer.importTrustees t1 telems db).1).1.charities =
      (Importer.importTrustees t1 telems db).1.charities) ∧
    ((Importer.importTrustees t2 telems
        (Importer.importTrustees t1 telems db).1).1.financials =
      (Importer.importTrustees t1 telems db).1.financials) ∧
    (t2 = t1 →
      (Importer.importTrustees t2 telems
          (Importer.importTrustees t1 telems db).1).1 =
        (Importer.importTrustees t1 telems db).1) := by
  have hchW := fun k => Importer.lastWrite_congr Importer.charityContent
    (Importer.writeCh t1 k) (Importer.writeCh t2 k)
    (fun e => Importer.writeCh_time t1 t2 k e) celems
  have hfinW := fun k => Importer.lastWrite_congr Importer.finContent
    (Importer.writeFin t1 k) (Importer.writeFin t2 k)
    (fun e => Importer.writeFin_time t1 t2 k e) celems
  have htrW := fun k => Importer.lastWrite_congr (fun _ => (0 : ℕ))
    (Importer.writeTr t1 k) (Importer.writeTr t2 k)
    (fun e => ⟨Importer.writeTr_time t1 t2 k e,
      Importer.option_map_const_eq 0 _ _ (Importer.writeTr_time t1 t2 k e)⟩) telems
  have ech2 : ∀ k, (Importer.importCharities t2 celems
      (Importer.importCharities t1 celems db).1).1.charities k =
      (Importer.lastWrite (Importer.writeCh t2 k) celems).or
        ((Importer.importCharities t1 celems db).1.charities k) :=
    fun k => Importer.importCharities_lookup_charities t2 celems
      ((Importer.importCharities t1 celems db).1, Importer.initialProgress) k
  have ech1 : ∀ k, (Importer.importCharities t1 celems db).1.charities k =
      (Importer.lastWrite (Importer.writeCh t1 k) celems).or (db.charities k) :=
    fun k => Importer.importCharities_lookup_charities t1 celems
      (db, Importer.initialProgress) k
  have efin2 : ∀ k, (Importer.importCharities t2 celems
      (Importer.importCharities t1 celems db).1).1.financials k =
      (Importer.lastWrite (Importer.writeFin t2 k) celems).or
        ((Importer.importCharities t1 celems db).1.financials k) :=
    fun k => Importer.importCharities_lookup_financials t2 celems
      ((Importer.importCharities t1 celems db).1, Importer.initialProgress) k
  have efin1 : ∀ k, (Importer.importCharities t1 celems db).1.financials k =
      (Importer.lastWrite (Importer.writeFin t1 k) celems).or (db.financials k) :=
    fun k => Importer.importCharities_lookup_financials t1 celems
      (db, Importer.initialProgress) k
  have etr2 : ∀ k, (Importer.importTrustees t2 telems
      (Importer.importTrustees t1 telems db).1).1.trustees k =
      (Importer.lastWrite (Importer.writeTr t2 k) telems).or
        ((Importer.importTrustees t1 telems db).1.trustees k) :=
    fun k => Importer.importTrustees_lookup_trustees t2 telems
      ((Importer.importTrustees t1 telems db).1, Importer.initialProgress) k
  have etr1 : ∀ k, (Importer.importTrustees t1 telems db).1.trustees k =
      (Importer.lastWrite (Importer.writeTr t1 k) telems).or (db.trustees k) :=
    fun k => Importer.importTrustees_lookup_trustees t1 telems
      (db, Importer.initialProgress) k
  have hkeepTr : (Importer.importCharities t2 celems
      (Importer.importCharities t1 celems db).1).1.trustees =
      (Importer.importCharities t1 celems db).1.trustees :=
    Importer.importCharities_keeps_trustees t2 celems
      ((Importer.importCharities t1 celems db).1, Importer.initialProgress)
  have hkeepCh : (Importer.importTrustees t2 telems
      (Importer.importTrustees t1 telems db).1).1.charities =
      (Importer.importTrustees t1 telems db).1.charities :=
    Importer.importTrustees_keeps_charities t2 telems
      ((Importer.importTrustees t1 telems db).1, Importer.initialProgress)
  have hkeepFin : (Importer.importTrustees t2 telems
      (Importer.importTrustees t1 telems db).1).1.financials =
      (Importer.importTrustees t1 telems db).1.financials :=
    Importer.importTrustees_keeps_financials t2 telems
      ((Importer.importTrustees t1 telems db).1, Importer.initialProgress)
  refine ⟨?_, ?_, ?_, ?_, hkeepTr, ?_, ?_, hkeepCh, hkeepFin, ?_⟩
  · intro k
    rw [ech2 k]
    conv_lhs => rw [ech1 k]
    conv_rhs => rw [ech1 k]
    exact (Importer.upsert_twice_stable Importer.charityContent _ _ _
      (hchW k).1 (hchW k).2).1
  · intro k
    rw [ech2 k]
    conv_lhs => rw [ech1 k]
    conv_rhs => rw [ech1 k]
    exact (Importer.upsert_twice_stable Importer.charityContent _ _ _
      (hchW k).1 (hchW k).2).2
  · intro k
    rw [efin2 k]
    conv_lhs => rw [efin1 k]
    conv_rhs => rw [efin1 k]
    exact (Importer.upsert_twice_stable Importer.finContent _ _ _
      (hfinW k).1 (hfinW k).2).1
  · intro k
    rw [efin2 k]
    conv_lhs => rw [efin1 k]
    conv_rhs => rw [efin1 k]
    exact (Importer.upsert_twice_stable Importer.finContent _ _ _
      (hfinW k).1 (hfinW k).2).2
  · intro ht
    subst ht
    refine Importer.DB_ext ?_ ?_ hkeepTr
    · funext k
      rw [ech2 k, ech1 k, Importer.option_or_self_assoc]
    · funext k
      rw [efin2 k, efin1 k, Importer.option_or_self_assoc]
  · intro k
    rw [etr2 k]
    conv_lhs => rw [etr1 k]
    conv_rhs => rw [etr1 k]
    exact (Importer.upsert_twice_stable (fun _ => (0 : ℕ)) _ _ _
      (htrW k).1 (htrW k).2).1
  · intro ht
    subst ht
    refine Importer.DB_ext hkeepCh hkeepFin ?_
    funext k
    rw [etr2 k, etr1 k, Importer.option_or_self_assoc]

/-- Witness for `streamImporter_idempotent`: re-importing a one-record array
at the same clock reading leaves the store literally unchanged. -/
theorem streamImporter_idempotent_witness :
    (Importer.importCharities 0 [some Importer.sampleCharityRecord]
        (Importer.importCharities 0 [some Importer.sampleCharityRecord]
          Importer.emptyDB).1).1 =
      (Importer.importCharities 0 [some Importer.sampleCharityRecord]
        Importer.emptyDB).1 :=
  (streamImporter_idempotent 0 0 [some Importer.sampleCharityRecord] []
    Importer.emptyDB).2.2.2.2.2.1 rfl
